import Mathlib

/-!
Verification development for the AI-assistant add-on of the drawdb diagram
editor (files `src/utils/aiHelpers.js`, `src/utils/aiActions.js` and the
`AIChatPanel` component).  The JavaScript sources are shallowly embedded:

* strings are embedded as `List Char` (code points; the inputs used in the
  concrete theorems are ASCII, where this agrees with JavaScript's UTF-16
  view);
* the JavaScript regular expressions used by `parseAIResponse` are embedded
  via a small backtracking engine (`Rx`, `runs`) that mirrors the JS
  semantics needed here: leftmost match, alternation in written order,
  greedy/lazy star with backtracking, `\s`, `.` (no line terminators),
  `\b`, case-insensitive literals, and the `g`-flag scan of
  `String.prototype.match`;
* `JSON.parse` is embedded as `jsonParse` into a dynamic value type `JVal`,
  and JavaScript property access, truthiness, `||` and `===` are embedded
  as explicit functions on `JVal`;
* code that can throw a `TypeError` (property access on `null`/`undefined`,
  calling a method of a missing property) is embedded in `Except Unit`.

All definitions are written with structural recursion (explicit fuel where
needed) so that closed terms evaluate inside the kernel.
-/

namespace DrawdbAI

/-- Character test for the JavaScript regexp class `\s`
(whitespace: space, tab, line terminators, NBSP, BOM). -/
def isJsSpaceC (c : Char) : Bool :=
  c = ' ' || c = '\t' || c = '\n' || c = '\r' ||
  c = '\x0b' || c = '\x0c' || c.val = 160 || c.val = 65279 ||
  c.val = 8232 || c.val = 8233

/-- Character test for the JavaScript regexp metacharacter `.`
(anything except line terminators). -/
def isDotC (c : Char) : Bool :=
  !(c = '\n' || c = '\r' || c.val = 8232 || c.val = 8233)

/-- Character test for `[a-zA-Z_]`. -/
def isIdentFirstC (c : Char) : Bool :=
  ('a' ≤ c && c ≤ 'z') || ('A' ≤ c && c ≤ 'Z') || c = '_'

/-- Character test for `[a-zA-Z0-9_]` (also the regexp word-character class
used by `\b`). -/
def isIdentC (c : Char) : Bool :=
  isIdentFirstC c || ('0' ≤ c && c ≤ '9')

/-- Character test for `[a-zA-Z]`. -/
def isLetterC (c : Char) : Bool :=
  ('a' ≤ c && c ≤ 'z') || ('A' ≤ c && c ≤ 'Z')

/-- ASCII lower-casing of one character, as `String.prototype.toLowerCase`
acts on the ASCII range (all concrete inputs in this file are ASCII). -/
def lowerC (c : Char) : Char :=
  if 'A' ≤ c && c ≤ 'Z' then Char.ofNat (c.toNat + 32) else c

/-- Character comparison, case-sensitively (`ci = false`) or under the
case-insensitive `i` flag (`ci = true`). -/
def chEq (ci : Bool) (pat inp : Char) : Bool :=
  if ci then lowerC pat = lowerC inp else pat = inp

/-- Shallow embedding of the regular-expression subset used by
`aiHelpers.js`: character classes, concatenation, alternation (tried in
written order), greedy/lazy star and the word-boundary assertion `\b`. -/
inductive Rx : Type where
  | eps : Rx
  | cls : (Char → Bool) → Rx
  | cat : Rx → Rx → Rx
  | alt : Rx → Rx → Rx
  | star : Rx → Bool → Rx    -- Bool: greedy?
  | wordB : Rx

/-- Backtracking matcher.  `runs fuel rx prev s` returns, in the engine's
preference order, every pair `(prev', rest)` such that `rx` can match a
prefix of `s`, leaving `rest`; `prev` is the character just before `s`
(needed for `\b`).  Every recursive call decreases `fuel`; star iterations
must consume input, as in JavaScript, so a fuel linear in the pattern depth
plus input length is exact. -/
def runs (fuel : Nat) (rx : Rx) (prev : Option Char) (s : List Char) :
    List (Option Char × List Char) :=
  match fuel with
  | 0 => []
  | fuel + 1 =>
    match rx with
    | .eps => [(prev, s)]
    | .cls p =>
      match s with
      | [] => []
      | c :: t => if p c then [(some c, t)] else []
    | .cat a b =>
      (runs fuel a prev s).flatMap fun pr => runs fuel b pr.1 pr.2
    | .alt a b => runs fuel a prev s ++ runs fuel b prev s
    | .star a greedy =>
      let more :=
        ((runs fuel a prev s).filter fun pr => pr.2.length < s.length).flatMap
          fun pr => runs fuel (.star a greedy) pr.1 pr.2
      if greedy then more ++ [(prev, s)] else (prev, s) :: more
    | .wordB =>
      let before := match prev with | none => false | some c => isIdentC c
      let after := match s with | [] => false | c :: _ => isIdentC c
      if before ≠ after then [(prev, s)] else []

/-- Fuel that is always sufficient for the patterns in this file on input
`s` (pattern depth is under 200 nodes; each consumed character costs a
bounded number of fuel units). -/
def fuelFor (s : List Char) : Nat := 3 * s.length + 400

/-- Length of the preferred (backtracking-first) match of `rx` at the start
of `s`, if any. -/
def runsHeadLen (rx : Rx) (prev : Option Char) (s : List Char) : Option Nat :=
  (runs (fuelFor s) rx prev s).head?.map fun x => s.length - x.2.length

/-- Leftmost search: first position (and match length) at which `rx`
matches inside `s`, scanning left to right with the previous character
threaded for `\b`. -/
def scanFirst (rx : Rx) (prev : Option Char) (s : List Char) :
    Option (Nat × Nat) :=
  match runsHeadLen rx prev s, s with
  | some len, _ => some (0, len)
  | none, [] => none
  | none, c :: t => (scanFirst rx (some c) t).map fun il => (il.1 + 1, il.2)

/-- Previous-character value after consuming `step` characters of `s`
(falls back to `p` when nothing is consumed). -/
def advPrev (p : Option Char) (s : List Char) (step : Nat) : Option Char :=
  match step with
  | 0 => p
  | k + 1 =>
    match (s.drop k).head? with
    | some c => some c
    | none => p

/-- Worker for `matchAll`. -/
def matchAllAux (rx : Rx) (p : Option Char) (s : List Char) (fuel : Nat) :
    List (List Char) :=
  match fuel with
  | 0 => []
  | fuel + 1 =>
    match scanFirst rx p s with
    | none => []
    | some (i, len) =>
      let m := (s.drop i).take len
      let step := i + max len 1
      m :: matchAllAux rx (advPrev p s step) (s.drop step) fuel

/-- Embedding of `str.match(rx)` with the `g` flag: the list of all
(non-overlapping) matched substrings, advancing by one position after an
empty match, as JavaScript does. -/
def matchAll (rx : Rx) (s : List Char) : List (List Char) :=
  matchAllAux rx none s (s.length + 1)

/-- Embedding of `str.replace(rx, "")` for a regexp without the `g` flag:
remove the leftmost match, if any. -/
def replaceFirstRx (rx : Rx) (s : List Char) : List Char :=
  match scanFirst rx none s with
  | none => s
  | some (i, len) => s.take i ++ s.drop (i + len)

/-- Embedding of `rx.test(str)` (for the freshly constructed regexps of the
fallback stage, whose `lastIndex` is 0). -/
def rxTest (rx : Rx) (s : List Char) : Bool :=
  (scanFirst rx none s).isSome

/-- Worker for `jsSplit`. -/
def jsSplitAux (rx : Rx) (p : Option Char) (s : List Char) (fuel : Nat) :
    List (List Char) :=
  match fuel with
  | 0 => [s]
  | fuel + 1 =>
    match scanFirst rx p s with
    | none => [s]
    | some (i, len) =>
      let step := i + max len 1
      s.take i :: jsSplitAux rx (advPrev p s step) (s.drop step) fuel

/-- Embedding of `str.split(rx)` (no capturing groups in the separators
used by the source). -/
def jsSplit (rx : Rx) (s : List Char) : List (List Char) :=
  jsSplitAux rx none s (s.length + 1)

/-- Literal regexp for the character list `t`; `ci` selects the
case-insensitive `i` flag. -/
def strRx (ci : Bool) (t : List Char) : Rx :=
  match t with
  | [] => .eps
  | c :: rest => .cat (.cls (chEq ci c)) (strRx ci rest)

/-- Case-insensitive literal from a string literal. -/
def strCI (s : String) : Rx := strRx true s.data

/-- Case-sensitive literal from a string literal. -/
def strCS (s : String) : Rx := strRx false s.data

/-- Alternation of a non-empty list of branches, in written order (the
default `d` is only used for the empty list, which never occurs here). -/
def alts (l : List Rx) (d : Rx) : Rx :=
  match l with
  | [] => d
  | [a] => a
  | a :: rest => .alt a (alts rest d)

/-- Regexp `\s*`. -/
def wsStar : Rx := .star (.cls isJsSpaceC) true

/-- Regexp `\s+`. -/
def wsPlus : Rx := .cat (.cls isJsSpaceC) wsStar

/-- Regexp `.*` (greedy, no line terminators). -/
def dotStar : Rx := .star (.cls isDotC) true

/-- Regexp `.+` (greedy). -/
def dotPlus : Rx := .cat (.cls isDotC) dotStar

/-- Regexp `[a-zA-Z_][a-zA-Z0-9_]*`. -/
def identRx : Rx := .cat (.cls isIdentFirstC) (.star (.cls isIdentC) true)

/-- Regexp `[a-zA-Z_][a-zA-Z0-9_]{2,}` (as used for table names in the
relationship patterns). -/
def identRx3 : Rx :=
  .cat (.cls isIdentFirstC)
    (.cat (.cls isIdentC) (.cat (.cls isIdentC) (.star (.cls isIdentC) true)))

/-- Regexp `(?:to|->|references|with)`, the relationship separator. -/
def sepTokens : Rx :=
  alts [strCI "to", strCI "->", strCI "references", strCI "with"] .eps

/-- The separator token list, for the totality proof of stage 4. -/
def sepTokenStrs : List (List Char) :=
  ["to".data, "->".data, "references".data, "with".data]

/-- Regexp `/\s*(?:to|->|references|with)\s*/i`, the `split` separator of
the relationship stage. -/
def sepSplitRx : Rx := .cat wsStar (.cat sepTokens wsStar)

/-- Regexp `/```json\n([\s\S]*?)\n```/g` (stage 1 fenced JSON blocks). -/
def fenceJsonRx : Rx :=
  .cat (strCS "```json\n")
    (.cat (.star (.cls fun _ => true) false) (strCS "\n```"))

/-- Regexp `/```sql\n([\s\S]*?)\n```/g` (stage 2 fenced SQL blocks). -/
def fenceSqlRx : Rx :=
  .cat (strCS "```sql\n")
    (.cat (.star (.cls fun _ => true) false) (strCS "\n```"))

/-- Stage-3 table pattern 1:
`/(?:CREATE TABLE|Add table|Table:|suggest.*table|recommend.*table|consider.*table)\s*([a-zA-Z_][a-zA-Z0-9_]*)/gi`. -/
def tablePat1 : Rx :=
  .cat
    (alts
      [strCI "CREATE TABLE", strCI "Add table", strCI "Table:",
       .cat (strCI "suggest") (.cat dotStar (strCI "table")),
       .cat (strCI "recommend") (.cat dotStar (strCI "table")),
       .cat (strCI "consider") (.cat dotStar (strCI "table"))] .eps)
    (.cat wsStar identRx)

/-- Stage-3 table pattern 2:
`/(?:missing|add|create|suggest).*table\s+([a-zA-Z_][a-zA-Z0-9_]*)/gi`. -/
def tablePat2 : Rx :=
  .cat (alts [strCI "missing", strCI "add", strCI "create", strCI "suggest"] .eps)
    (.cat dotStar (.cat (strCI "table") (.cat wsPlus identRx)))

/-- Stage-3 table pattern 3:
`/(?:you should|I recommend|consider adding).*table\s+([a-zA-Z_][a-zA-Z0-9_]*)/gi`. -/
def tablePat3 : Rx :=
  .cat (alts [strCI "you should", strCI "I recommend", strCI "consider adding"] .eps)
    (.cat dotStar (.cat (strCI "table") (.cat wsPlus identRx)))

/-- The table-name-stripping replace regexp of stage 3:
`/(?:CREATE TABLE|Add table|Table:|suggest.*table|recommend.*table|consider.*table|missing|add|create|suggest|you should|I recommend|consider adding).*table\s*/i`. -/
def tableStripRx : Rx :=
  .cat
    (alts
      [strCI "CREATE TABLE", strCI "Add table", strCI "Table:",
       .cat (strCI "suggest") (.cat dotStar (strCI "table")),
       .cat (strCI "recommend") (.cat dotStar (strCI "table")),
       .cat (strCI "consider") (.cat dotStar (strCI "table")),
       strCI "missing", strCI "add", strCI "create", strCI "suggest",
       strCI "you should", strCI "I recommend", strCI "consider adding"] .eps)
    (.cat dotStar (.cat (strCI "table") wsStar))

/-- Stage-4 relationship pattern 1:
`/(?:relationship|foreign key|FK|connection|link)\s*([a-zA-Z_][a-zA-Z0-9_]{2,})\s*(?:to|->|references|with)\s*([a-zA-Z_][a-zA-Z0-9_]{2,})/gi`.
The `cat` grouping exposes the separator alternation for the totality
proof (concatenation is associative at the semantic level). -/
def relPat1 : Rx :=
  .cat
    (.cat
      (alts
        [strCI "relationship", strCI "foreign key", strCI "FK",
         strCI "connection", strCI "link"] .eps)
      (.cat wsStar (.cat identRx3 wsStar)))
    (.cat sepTokens (.cat wsStar identRx3))

/-- Stage-4 relationship pattern 2:
`/(?:suggest|recommend|consider).*relationship.*([a-zA-Z_][a-zA-Z0-9_]{2,})\s*(?:to|->|references|with)\s*([a-zA-Z_][a-zA-Z0-9_]{2,})/gi`. -/
def relPat2 : Rx :=
  .cat
    (.cat (alts [strCI "suggest", strCI "recommend", strCI "consider"] .eps)
      (.cat dotStar
        (.cat (strCI "relationship") (.cat dotStar (.cat identRx3 wsStar)))))
    (.cat sepTokens (.cat wsStar identRx3))

/-- Stage-4 relationship pattern 3:
`/(?:you should|I recommend|consider adding).*relationship.*([a-zA-Z_][a-zA-Z0-9_]{2,})\s*(?:to|->|references|with)\s*([a-zA-Z_][a-zA-Z0-9_]{2,})/gi`. -/
def relPat3 : Rx :=
  .cat
    (.cat (alts [strCI "you should", strCI "I recommend", strCI "consider adding"] .eps)
      (.cat dotStar
        (.cat (strCI "relationship") (.cat dotStar (.cat identRx3 wsStar)))))
    (.cat sepTokens (.cat wsStar identRx3))

/-- The `fromTable`-stripping replace regexp of stage 4:
`/(?:relationship|foreign key|FK|connection|link|suggest|recommend|consider|you should|I recommend|consider adding).*relationship\s*/i`. -/
def relStripRx : Rx :=
  .cat
    (alts
      [strCI "relationship", strCI "foreign key", strCI "FK",
       strCI "connection", strCI "link", strCI "suggest", strCI "recommend",
       strCI "consider", strCI "you should", strCI "I recommend",
       strCI "consider adding"] .eps)
    (.cat dotStar (.cat (strCI "relationship") wsStar))

/-- Stage-5 note pattern 1:
`/(?:add|create|insert|include).*note.*(?:about|for|regarding|documenting)\s*(.+)/gi`. -/
def notePat1 : Rx :=
  .cat (alts [strCI "add", strCI "create", strCI "insert", strCI "include"] .eps)
    (.cat dotStar
      (.cat (strCI "note")
        (.cat dotStar
          (.cat (alts [strCI "about", strCI "for", strCI "regarding",
                       strCI "documenting"] .eps)
            (.cat wsStar dotPlus)))))

/-- Stage-5 note pattern 2 (keyword `document`, tails `about|for|regarding`). -/
def notePat2 : Rx :=
  .cat (alts [strCI "add", strCI "create", strCI "insert", strCI "include"] .eps)
    (.cat dotStar
      (.cat (strCI "document")
        (.cat dotStar
          (.cat (alts [strCI "about", strCI "for", strCI "regarding"] .eps)
            (.cat wsStar dotPlus)))))

/-- Stage-5 note pattern 3 (keyword `spec`). -/
def notePat3 : Rx :=
  .cat (alts [strCI "add", strCI "create", strCI "insert", strCI "include"] .eps)
    (.cat dotStar
      (.cat (strCI "spec")
        (.cat dotStar
          (.cat (alts [strCI "about", strCI "for", strCI "regarding"] .eps)
            (.cat wsStar dotPlus)))))

/-- Stage-5 note pattern 4 (keyword `specification`). -/
def notePat4 : Rx :=
  .cat (alts [strCI "add", strCI "create", strCI "insert", strCI "include"] .eps)
    (.cat dotStar
      (.cat (strCI "specification")
        (.cat dotStar
          (.cat (alts [strCI "about", strCI "for", strCI "regarding"] .eps)
            (.cat wsStar dotPlus)))))

/-- The note-content-stripping replace regexp of stage 5:
`/(?:add|create|insert|include).*(?:note|document|spec|specification).*(?:about|for|regarding)\s*/i`. -/
def noteStripRx : Rx :=
  .cat (alts [strCI "add", strCI "create", strCI "insert", strCI "include"] .eps)
    (.cat dotStar
      (.cat (alts [strCI "note", strCI "document", strCI "spec",
                   strCI "specification"] .eps)
        (.cat dotStar
          (.cat (alts [strCI "about", strCI "for", strCI "regarding"] .eps)
            wsStar))))

/-- Regexp `new RegExp("\\b" + w + "\\b", "gi")` of the fallback stage. -/
def wordRx (w : List Char) : Rx :=
  .cat .wordB (.cat (strRx true w) .wordB)

/-- Equality of character lists (explicit, so closed terms reduce without
instance indirection). -/
def eqC : List Char → List Char → Bool
  | [], [] => true
  | a :: as', b :: bs' => a = b && eqC as' bs'
  | _, _ => false

/-- Membership of a character list in a list of words. -/
def memC (x : List Char) : List (List Char) → Bool
  | [] => false
  | w :: ws => eqC w x || memC x ws

/-- ASCII lower-casing of a character list (`toLowerCase`). -/
def lowerL (s : List Char) : List Char := s.map lowerC

/-- Trailing-whitespace removal, on the reversed list. -/
def dropWsRev : List Char → List Char
  | [] => []
  | c :: t => if isJsSpaceC c then dropWsRev t else c :: t

/-- Embedding of `String.prototype.trim`. -/
def trimL (s : List Char) : List Char :=
  (dropWsRev (s.dropWhile isJsSpaceC).reverse).reverse

/-- Test whether `pat` is a prefix of `s` (case-sensitively). -/
def startsWithL (pat s : List Char) : Bool :=
  match pat, s with
  | [], _ => true
  | _ :: _, [] => false
  | p :: pt, c :: ct => p = c && startsWithL pt ct

/-- Index of the first occurrence of `pat` in `s` (embedding of
`String.prototype.indexOf` for a non-empty needle). -/
def indexOfSub (pat : List Char) : List Char → Option Nat
  | [] => if startsWithL pat [] then some 0 else none
  | c :: t =>
    if startsWithL pat (c :: t) then some 0
    else (indexOfSub pat t).map (· + 1)

/-- Embedding of `String.prototype.includes`. -/
def includesSub (s pat : List Char) : Bool := (indexOfSub pat s).isSome

/-- Embedding of `str.substring(a, b)` for `a ≤ b` (the source always
clamps the arguments before the call). -/
def substringL (s : List Char) (a b : Nat) : List Char :=
  (s.drop a).take (b - a)

/-- Embedding of `str.replace(lit, "")` for a literal pattern: remove the
first occurrence of `pat`. -/
def removeFirstLit (pat : List Char) (s : List Char) : List Char :=
  match indexOfSub pat s with
  | none => s
  | some i => s.take i ++ s.drop (i + pat.length)

/-- Test whether some character of `s` satisfies `p` (used for the
`/[a-zA-Z]/.test` check of stage 4). -/
def anyC (p : Char → Bool) : List Char → Bool
  | [] => false
  | c :: t => p c || anyC p t

/-- Dynamic JavaScript value, as produced by `JSON.parse` and by the
suggestion-building code.  Numbers keep their source text (no numeric
reasoning is needed for the claims); objects keep their key/value pairs in
insertion order. -/
inductive JVal : Type where
  | jnull : JVal
  | jbool : Bool → JVal
  | jnum : List Char → JVal
  | jstr : List Char → JVal
  | jarr : List JVal → JVal
  | jobj : List (List Char × JVal) → JVal

/-- Property lookup on an object key list; later duplicate keys win, as in
`JSON.parse`. -/
def lookupKey (k : List Char) : List (List Char × JVal) → Option JVal
  | [] => none
  | (k', v) :: rest =>
    match lookupKey k rest with
    | some r => some r
    | none => if eqC k' k then some v else none

/-- Embedding of JavaScript property access `v.k` for a receiver that is
not `null`/`undefined`: objects look up the key, every other value yields
`undefined` (`none`) for the properties accessed by this source. -/
def jGet (v : JVal) (k : String) : Option JVal :=
  match v with
  | .jobj kvs => lookupKey k.data kvs
  | _ => none

/-- Embedding of JavaScript truthiness.  A numeric literal is falsy exactly
when its mantissa has no non-zero digit (`0`, `-0`, `0.00`, `0e9`, ...). -/
def truthy : JVal → Bool
  | .jnull => false
  | .jbool b => b
  | .jstr s => !s.isEmpty
  | .jnum raw => numNonZero raw
  | .jarr _ => true
  | .jobj _ => true
where
  /-- Mantissa check: a digit 1–9 before any exponent marker. -/
  numNonZero : List Char → Bool
    | [] => false
    | c :: t =>
      if c = 'e' || c = 'E' then false
      else ('1' ≤ c && c ≤ '9') || numNonZero t

/-- Embedding of `a || b` where `a` is a possibly-absent property value and
`b` a present default. -/
def jsOr (a : Option JVal) (b : JVal) : JVal :=
  match a with
  | some v => if truthy v then v else b
  | none => b

/-- Decomposition of a JSON numeric literal into sign, mantissa digits and
a decimal exponent, for `===` comparison of numbers. -/
def numParts (raw : List Char) : Bool × List Char × Int :=
  let (neg, rest) :=
    match raw with
    | '-' :: t => (true, t)
    | t => (false, t)
  let intPart := rest.takeWhile fun c => '0' ≤ c && c ≤ '9'
  let rest2 := rest.dropWhile fun c => '0' ≤ c && c ≤ '9'
  let (fracPart, rest3) :=
    match rest2 with
    | '.' :: t => (t.takeWhile fun c => '0' ≤ c && c ≤ '9',
                   t.dropWhile fun c => '0' ≤ c && c ≤ '9')
    | t => ([], t)
  let expVal : Int :=
    match rest3 with
    | 'e' :: t => readExp t
    | 'E' :: t => readExp t
    | _ => 0
  let mant := intPart ++ fracPart
  let scale : Int := expVal - (fracPart.length : Int)
  let mant' := mant.dropWhile (· = '0')
  let (mant'', scale') := stripZeros mant'.reverse scale
  (neg, mant''.reverse, scale')
where
  /-- Signed decimal exponent reader. -/
  readExp (t : List Char) : Int :=
    match t with
    | '+' :: d => (digitsVal d 0 : Int)
    | '-' :: d => -(digitsVal d 0 : Int)
    | d => (digitsVal d 0 : Int)
  /-- Decimal digits to a natural number. -/
  digitsVal : List Char → Nat → Nat
    | [], acc => acc
    | c :: t, acc => digitsVal t (acc * 10 + (c.toNat - 48))
  /-- Strip trailing zeros of the reversed mantissa, bumping the scale. -/
  stripZeros : List Char → Int → List Char × Int
    | [], sc => ([], sc)
    | c :: t, sc => if c = '0' then stripZeros t (sc + 1) else (c :: t, sc)

/-- Numeric equality of two JSON numeric literals (value equality of the
exact decimal values; the concrete inputs of this file never compare
numbers). -/
def numEq (a b : List Char) : Bool :=
  let (na, ma, sa) := numParts a
  let (nb, mb, sb) := numParts b
  if ma.isEmpty && mb.isEmpty then true
  else na = nb && eqC ma mb && sa = sb

/-- Embedding of JavaScript strict equality `===` between two present
values.  Distinct objects/arrays compare by reference and are never
aliased between a parsed suggestion and the diagram, hence `false`. -/
def jsStrictEq (a b : JVal) : Bool :=
  match a, b with
  | .jnull, .jnull => true
  | .jbool x, .jbool y => x = y
  | .jstr x, .jstr y => eqC x y
  | .jnum x, .jnum y => numEq x y
  | _, _ => false

/-- Embedding of `===` where either side may be `undefined` (`none`);
`undefined === undefined` is `true`. -/
def jsEqO (a b : Option JVal) : Bool :=
  match a, b with
  | none, none => true
  | some x, some y => jsStrictEq x y
  | _, _ => false

/-- JSON insignificant whitespace skipper. -/
def skipWsJ : List Char → List Char
  | [] => []
  | c :: t =>
    if c = ' ' || c = '\t' || c = '\n' || c = '\r' then skipWsJ t else c :: t

/-- Hexadecimal digit value, for `\uXXXX` escapes. -/
def hexVal (c : Char) : Option Nat :=
  if '0' ≤ c && c ≤ '9' then some (c.toNat - 48)
  else if 'a' ≤ c && c ≤ 'f' then some (c.toNat - 87)
  else if 'A' ≤ c && c ≤ 'F' then some (c.toNat - 55)
  else none

/-- JSON string-body reader (after the opening quote): returns the decoded
characters and the rest of the input.  Raw control characters are
rejected, escapes are decoded; a `\uXXXX` escape yields the code point
when it is a scalar value (the concrete inputs here use no `\u`). -/
def jpStringRest : List Char → List Char → Option (List Char × List Char)
  | [], _ => none
  | '"' :: r, acc => some (acc.reverse, r)
  | '\\' :: e, acc =>
    match e with
    | [] => none
    | '"' :: r => jpStringRest r ('"' :: acc)
    | '\\' :: r => jpStringRest r ('\\' :: acc)
    | '/' :: r => jpStringRest r ('/' :: acc)
    | 'b' :: r => jpStringRest r ('\x08' :: acc)
    | 'f' :: r => jpStringRest r ('\x0c' :: acc)
    | 'n' :: r => jpStringRest r ('\n' :: acc)
    | 'r' :: r => jpStringRest r ('\r' :: acc)
    | 't' :: r => jpStringRest r ('\t' :: acc)
    | 'u' :: h1 :: h2 :: h3 :: h4 :: r =>
      match hexVal h1, hexVal h2, hexVal h3, hexVal h4 with
      | some a, some b, some c, some d =>
        jpStringRest r (Char.ofNat (((a * 16 + b) * 16 + c) * 16 + d) :: acc)
      | _, _, _, _ => none
    | _ => none
  | c :: r, acc => if c.toNat < 32 then none else jpStringRest r (c :: acc)

/-- JSON number reader, strict grammar
`-?(0|[1-9][0-9]*)(\.[0-9]+)?([eE][+-]?[0-9]+)?`; returns the raw literal
and the rest. -/
def jpNumber (s : List Char) : Option (List Char × List Char) :=
  let (sign, s1) :=
    match s with
    | '-' :: t => ((['-'] : List Char), t)
    | t => (([] : List Char), t)
  match s1 with
  | [] => none
  | c :: _ =>
    if !('0' ≤ c && c ≤ '9') then none
    else
      let intDigits := s1.takeWhile fun d => '0' ≤ d && d ≤ '9'
      if intDigits.length > 1 && c = '0' then none
      else
        let s2 := s1.dropWhile fun d => '0' ≤ d && d ≤ '9'
        let fracStep : Option (List Char × List Char) :=
          match s2 with
          | '.' :: t =>
            let ds := t.takeWhile fun d => '0' ≤ d && d ≤ '9'
            if ds.isEmpty then none
            else some ('.' :: ds, t.dropWhile fun d => '0' ≤ d && d ≤ '9')
          | t => some (([] : List Char), t)
        match fracStep with
        | none => none
        | some (fracC, s3) =>
          let expStep : Option (List Char × List Char) :=
            match s3 with
            | e :: rest =>
              if e = 'e' || e = 'E' then
                let (sg, rest2) :=
                  match rest with
                  | '+' :: t => ((['+'] : List Char), t)
                  | '-' :: t => ((['-'] : List Char), t)
                  | t => (([] : List Char), t)
                let ds := rest2.takeWhile fun d => '0' ≤ d && d ≤ '9'
                if ds.isEmpty then none
                else some (e :: (sg ++ ds),
                  rest2.dropWhile fun d => '0' ≤ d && d ≤ '9')
              else some ([], s3)
            | [] => some ([], s3)
          match expStep with
          | none => none
          | some (expC, s4) => some (sign ++ intDigits ++ fracC ++ expC, s4)

/-- Array-tail parser, parameterised by a parser `jpV` for the element
values (instantiated with `jpValue` at one fuel less): one value, then `,`
and recurse or `]` and stop. -/
def jpElemsF (jpV : List Char → Option (JVal × List Char)) :
    Nat → List Char → List JVal → Option (JVal × List Char)
  | 0, _, _ => none
  | fuel + 1, s, acc =>
    match jpV s with
    | none => none
    | some (v, r) =>
      match skipWsJ r with
      | ',' :: r2 => jpElemsF jpV fuel r2 (acc ++ [v])
      | ']' :: r2 => some (.jarr (acc ++ [v]), r2)
      | _ => none

/-- Object-tail parser, parameterised like `jpElemsF`: one
`"key": value` pair, then `,` and recurse or `}` and stop. -/
def jpMembersF (jpV : List Char → Option (JVal × List Char)) :
    Nat → List Char → List (List Char × JVal) → Option (JVal × List Char)
  | 0, _, _ => none
  | fuel + 1, s, acc =>
    match skipWsJ s with
    | '"' :: r =>
      match jpStringRest r [] with
      | none => none
      | some (k, r2) =>
        match skipWsJ r2 with
        | ':' :: r3 =>
          match jpV r3 with
          | none => none
          | some (v, r4) =>
            match skipWsJ r4 with
            | ',' :: r5 => jpMembersF jpV fuel r5 (acc ++ [(k, v)])
            | '\x7d' :: r5 => some (.jobj (acc ++ [(k, v)]), r5)
            | _ => none
        | _ => none
    | _ => none

/-- Recursive JSON value parser (fuel-structural): one value after
optional whitespace. -/
def jpValue (fuel : Nat) (s : List Char) : Option (JVal × List Char) :=
  match fuel with
  | 0 => none
  | fuel + 1 =>
    match skipWsJ s with
    | 'n' :: 'u' :: 'l' :: 'l' :: r => some (.jnull, r)
    | 't' :: 'r' :: 'u' :: 'e' :: r => some (.jbool true, r)
    | 'f' :: 'a' :: 'l' :: 's' :: 'e' :: r => some (.jbool false, r)
    | '"' :: r => (jpStringRest r []).map fun p => (.jstr p.1, p.2)
    | '[' :: r =>
      (match skipWsJ r with
       | ']' :: r2 => some (.jarr [], r2)
       | r2 => jpElemsF (jpValue fuel) fuel r2 [])
    | '\x7b' :: r =>
      (match skipWsJ r with
       | '\x7d' :: r2 => some (.jobj [], r2)
       | r2 => jpMembersF (jpValue fuel) fuel r2 [])
    | r => (jpNumber r).map fun p => (.jnum p.1, p.2)

/-- Embedding of `JSON.parse`: `none` models a thrown `SyntaxError`
(always caught by the source). -/
def jsonParse (s : List Char) : Option JVal :=
  match jpValue (3 * s.length + 9) s with
  | none => none
  | some (v, r) => if (skipWsJ r).isEmpty then some v else none

/-- Result of `parseAIResponse`: the `suggestions` object with its six
sequences, in declaration order. -/
structure Suggestion : Type where
  tables : List JVal
  relationships : List JVal
  notes : List JVal
  optimizations : List JVal
  sqlQueries : List (List Char)
  general : List JVal

/-- The initial (all-empty) suggestions object. -/
def emptySuggestion : Suggestion := ⟨[], [], [], [], [], []⟩

instance : Inhabited Suggestion := ⟨emptySuggestion⟩

/-- Fence stripping of a stage-1 match:
`match.replace(/```json\n/, "").replace(/\n```/, "")`. -/
def stripJsonFence (m : List Char) : List Char :=
  removeFirstLit "\n```".data (removeFirstLit "```json\n".data m)

/-- Array contents of a possibly-absent property value (empty unless an
array), as used by the stage-1 merge guard
`parsed.tables && Array.isArray(parsed.tables)`. -/
def jArrOf (o : Option JVal) : List JVal :=
  match o with
  | some (.jarr xs) => xs
  | _ => []

/-- Contribution of one fenced JSON block (stage 1): parse it; the block
is skipped on a parse error, and also when the parsed value is `null`
(accessing `.tables` on `null` throws inside the same `try`); otherwise
each of `tables`/`relationships`/`notes` is appended when it is an
array. -/
def jsonBlockAdd (acc : List JVal × List JVal × List JVal) (m : List Char) :
    List JVal × List JVal × List JVal :=
  match jsonParse (stripJsonFence m) with
  | none => acc
  | some .jnull => acc
  | some v =>
    (acc.1 ++ jArrOf (jGet v "tables"),
     acc.2.1 ++ jArrOf (jGet v "relationships"),
     acc.2.2 ++ jArrOf (jGet v "notes"))

/-- Stage 1: tables, relationships and notes contributed by the fenced
JSON blocks, in order of appearance. -/
def jsonStage (s : List Char) : List JVal × List JVal × List JVal :=
  (matchAll fenceJsonRx s).foldl jsonBlockAdd ([], [], [])

/-- Fence stripping of a stage-2 match. -/
def stripSqlFence (m : List Char) : List Char :=
  removeFirstLit "\n```".data (removeFirstLit "```sql\n".data m)

/-- Stage 2: fenced SQL blocks, collected verbatim. -/
def sqlStage (s : List Char) : List (List Char) :=
  (matchAll fenceSqlRx s).map stripSqlFence

/-- The fixed default schema of a synthesized table suggestion: an `id`
integer primary key plus `created_at`/`updated_at` timestamps. -/
def defaultFieldsJ : JVal :=
  .jarr
    [.jobj [("name".data, .jstr "id".data),
            ("type".data, .jstr "INTEGER".data),
            ("primaryKey".data, .jbool true)],
     .jobj [("name".data, .jstr "created_at".data),
            ("type".data, .jstr "TIMESTAMP".data)],
     .jobj [("name".data, .jstr "updated_at".data),
            ("type".data, .jstr "TIMESTAMP".data)]]

/-- Table suggestion synthesized by stage 3 for an extracted name. -/
def mkBasicTable (n : List Char) : JVal :=
  .jobj [("name".data, .jstr n),
         ("fields".data, defaultFieldsJ),
         ("comment".data, .jstr ("AI-suggested table: ".data ++ n))]

/-- Name extraction of stage 3: strip the leading keyword part with the
replace regexp, then trim. -/
def tableNameOfMatch (m : List Char) : List Char :=
  trimL (replaceFirstRx tableStripRx m)

/-- Stage 3: table-name heuristics, three patterns applied in order, each
match yielding a basic table suggestion. -/
def stage3Tables (s : List Char) : List JVal :=
  ((matchAll tablePat1 s).map fun m => mkBasicTable (tableNameOfMatch m)) ++
  ((matchAll tablePat2 s).map fun m => mkBasicTable (tableNameOfMatch m)) ++
  ((matchAll tablePat3 s).map fun m => mkBasicTable (tableNameOfMatch m))

/-- The stop-word list of stage 4 (`for` is listed twice in the source). -/
def excludeWords : List (List Char) :=
  ["the", "and", "or", "but", "for", "nor", "yet", "so", "a", "an", "in",
   "on", "at", "to", "for", "of", "with", "by", "linked", "connected",
   "related"].map String.data

/-- Relationship suggestion synthesized by stage 4. -/
def mkRelObj (fromT toT : List Char) : JVal :=
  .jobj [("fromTable".data, .jstr fromT),
         ("toTable".data, .jstr toT),
         ("fromField".data, .jstr (lowerL fromT ++ "_id".data)),
         ("toField".data, .jstr "id".data),
         ("cardinality".data, .jstr "one_to_many".data),
         ("constraint".data, .jstr "No action".data)]

/-- Stage-4 processing of one pattern match: split on the separator, strip
the keyword prefix of the left part, then apply the stop-word and shape
filters.  The `.error` case models the `TypeError` thrown by
`toTable.toLowerCase()` when the split produced no second part
(`parts[1]` is `undefined`); the totality theorem shows it never fires. -/
def relFromMatch (m : List Char) : Except Unit (Option JVal) :=
  let parts := jsSplit sepSplitRx m
  let fromT := trimL (replaceFirstRx relStripRx (parts.headD []))
  if memC (lowerL fromT) excludeWords then .ok none
  else
    match parts.get? 1 with
    | none => .error ()
    | some p1 =>
      let toT := trimL p1
      if memC (lowerL toT) excludeWords then .ok none
      else if decide (fromT.length < 2) || decide (toT.length < 2) ||
          !anyC isLetterC fromT || !anyC isLetterC toT then .ok none
      else .ok (some (mkRelObj fromT toT))

/-- Left-to-right mapping of `relFromMatch` over the match list, stopping
at the first thrown exception, as `Array.prototype.map` does. -/
def relMapM : List (List Char) → Except Unit (List (Option JVal))
  | [] => .ok []
  | m :: rest => do
    let r ← relFromMatch m
    let rs ← relMapM rest
    pure (r :: rs)

/-- All relationship suggestions contributed by one stage-4 pattern
(`matches.map(...).filter(rel => rel !== null)`). -/
def relsOfPattern (rx : Rx) (s : List Char) : Except Unit (List JVal) := do
  let rs ← relMapM (matchAll rx s)
  pure (rs.filterMap id)

/-- Stage 4: relationship-name heuristics, three patterns in order. -/
def stage4Rels (s : List Char) : Except Unit (List JVal) := do
  let a ← relsOfPattern relPat1 s
  let b ← relsOfPattern relPat2 s
  let c ← relsOfPattern relPat3 s
  pure (a ++ b ++ c)

/-- Note suggestion at the fixed default position `(100, 100)`. -/
def mkNoteObj (content : List Char) : JVal :=
  .jobj [("content".data, .jstr content),
         ("position".data,
          .jobj [("x".data, .jnum "100".data), ("y".data, .jnum "100".data)])]

/-- Content extraction of stage 5. -/
def noteContentOfMatch (m : List Char) : List Char :=
  trimL (replaceFirstRx noteStripRx m)

/-- Stage 5: note heuristics, four patterns in order. -/
def stage5Notes (s : List Char) : List JVal :=
  ((matchAll notePat1 s).map fun m => mkNoteObj (noteContentOfMatch m)) ++
  ((matchAll notePat2 s).map fun m => mkNoteObj (noteContentOfMatch m)) ++
  ((matchAll notePat3 s).map fun m => mkNoteObj (noteContentOfMatch m)) ++
  ((matchAll notePat4 s).map fun m => mkNoteObj (noteContentOfMatch m))

/-- The fixed entity-noun vocabulary of the fallback stage, in source
order. -/
def commonTableNames : List (List Char) :=
  ["users", "user", "customers", "customer", "orders", "order", "products",
   "product", "categories", "category", "posts", "post", "comments",
   "comment", "tags", "tag", "sessions", "session", "logs", "log", "audit",
   "audits", "settings", "setting", "profiles", "profile", "addresses",
   "address", "payments", "payment", "inventory", "stock", "suppliers",
   "supplier", "employees", "employee"].map String.data

/-- Table suggestion synthesized by the fallback stage. -/
def analysisTable (n : List Char) : JVal :=
  .jobj [("name".data, .jstr n),
         ("fields".data, defaultFieldsJ),
         ("comment".data,
          .jstr ("AI-suggested table based on analysis: ".data ++ n))]

/-- Fallback tables: every vocabulary noun with a whole-word
case-insensitive occurrence, deduplicated against the fallback's own
accumulator. -/
def fbTables (s : List Char) : List JVal :=
  commonTableNames.foldl
    (fun acc n =>
      if rxTest (wordRx n) s then
        if acc.any fun t => jsEqO (jGet t "name") (some (.jstr n)) then acc
        else acc ++ [analysisTable n]
      else acc)
    []

/-- The fixed relationship-phrase vocabulary of the fallback stage. -/
def relationshipKeywords : List (List Char) :=
  ["belongs to", "has many", "has one", "many to many", "one to many",
   "one to one", "foreign key", "reference", "relates to", "connected to",
   "linked to"].map String.data

/-- Generic relationship suggestion of the fallback stage (the source
anchors it to the placeholder name `table1`). -/
def genericRel (toT : List Char) : JVal :=
  .jobj [("fromTable".data, .jstr "table1".data),
         ("toTable".data, .jstr toT),
         ("fromField".data, .jstr "table1_id".data),
         ("toField".data, .jstr "id".data),
         ("cardinality".data, .jstr "one_to_many".data),
         ("constraint".data, .jstr "No action".data)]

/-- Fallback relationships contributed by one phrase: a ±100-character
window around its first (lower-cased) occurrence is scanned for every
vocabulary noun. -/
def fbRelsForKeyword (s kw : List Char) : List JVal :=
  let ctx := lowerL s
  if includesSub ctx kw then
    match indexOfSub kw ctx with
    | none => []
    | some idx =>
      let before := substringL s (if idx ≥ 100 then idx - 100 else 0) idx
      let after := substringL s idx (min s.length (idx + 100))
      commonTableNames.foldl
        (fun acc n =>
          if includesSub (lowerL before) n || includesSub (lowerL after) n
          then acc ++ [genericRel n] else acc)
        []
  else []

/-- Fallback relationships over all phrases. -/
def fbRels (s : List Char) : List JVal :=
  relationshipKeywords.foldl (fun acc kw => acc ++ fbRelsForKeyword s kw) []

/-- The fixed documentation-keyword vocabulary of the fallback stage. -/
def noteKeywords : List (List Char) :=
  ["spec", "specification", "document", "documentation", "note", "notes",
   "comment", "comments", "description", "explanation", "details"].map
    String.data

/-- Fallback note contributed by one documentation keyword: a −50/+100
character window around the first occurrence, kept only above 20
characters. -/
def fbNotesForKeyword (s kw : List Char) : List JVal :=
  let ctx := lowerL s
  if includesSub ctx kw then
    match indexOfSub kw ctx with
    | none => []
    | some idx =>
      let before := substringL s (if idx ≥ 50 then idx - 50 else 0) idx
      let after := substringL s idx (min s.length (idx + 100))
      let content :=
        trimL ("Documentation: ".data ++ trimL before ++ " ".data ++ trimL after)
      if content.length > 20 then [mkNoteObj content] else []
  else []

/-- Embedding of `extractGeneralSuggestions` (the fallback scan): tables,
relationships and notes (the caller ignores the notes). -/
def extractGeneralSuggestions (s : List Char) :
    List JVal × List JVal × List JVal :=
  (fbTables s,
   fbRels s,
   noteKeywords.foldl (fun acc kw => acc ++ fbNotesForKeyword s kw) [])

/-- Embedding of `parseAIResponse` (`aiHelpers.js:58-198`).  The
`Except Unit` layer carries the only uncaught exception the function can
attempt (see `relFromMatch`); the totality theorem shows the function
never throws. -/
def parseAIResponse (s : String) : Except Unit Suggestion := do
  let t := s.data
  let j := jsonStage t
  let sql := sqlStage t
  let tabs := j.1 ++ stage3Tables t
  let rels4 ← stage4Rels t
  let rels := j.2.1 ++ rels4
  let notes := j.2.2 ++ stage5Notes t
  let fb :=
    if tabs.isEmpty && rels.isEmpty && notes.isEmpty then
      let g := extractGeneralSuggestions t
      (g.1, g.2.1)
    else ([], [])
  pure { tables := tabs ++ fb.1, relationships := rels ++ fb.2,
         notes := notes, optimizations := [], sqlQueries := sql,
         general := [] }

/-- Value view of `parseAIResponse` (total by the totality theorem). -/
def parseOk (s : String) : Suggestion :=
  (parseAIResponse s).toOption.getD emptySuggestion

/-! ### The suggestion applier (`handleApplySuggestion`, AIChatPanel) -/

/-- Diagram field record as built by `handleApplySuggestion` (and as held
by pre-existing diagram tables).  The property values that the source
copies verbatim from the parsed suggestion stay dynamic (`JVal`); `name`
and `type` may be absent (`undefined`). -/
structure DField : Type where
  id : List Char
  name : Option JVal
  type : Option JVal
  default : JVal
  check : List Char
  primary : JVal
  unique : JVal
  notNull : JVal
  increment : JVal
  comment : JVal

/-- Diagram table record. -/
structure DTable : Type where
  id : List Char
  name : Option JVal
  x : Int
  y : Int
  locked : Bool
  fields : List DField
  comment : JVal
  indices : List Unit
  color : List Char

/-- Diagram relationship record. -/
structure DRel : Type where
  id : List Char
  name : List Char
  startTableId : List Char
  endTableId : List Char
  startFieldId : List Char
  endFieldId : List Char
  cardinality : JVal
  constraint : JVal
  color : List Char

/-- Diagram note record. -/
structure DNote : Type where
  id : List Char
  content : Option JVal
  x : JVal
  y : JVal
  width : Int
  height : Int
  color : List Char

/-- Modelled from the spec: an undo-stack entry of the diagram mutation
collaborator (`setUndoStack`/`setRedoStack` of `useUndoRedo`, which is not
part of the sources); only its presence is relevant here. -/
structure UndoEntry : Type where
  action : List Char
  element : List Char

/-- State threaded through one run of the suggestion applier: the
aggregate counters, the local `addedTables` array, the collaborator-held
diagram and undo/redo stacks, and a fresh-identifier counter. -/
structure ApplyState : Type where
  applied : Nat
  errors : List (List Char)
  added : List DTable
  diagTables : List DTable
  diagRels : List DRel
  diagNotes : List DNote
  undo : List UndoEntry
  redo : List UndoEntry
  nextId : Nat

/-- Modelled from the spec: `nanoid()` of the external nanoid library —
a freshly generated unique identifier, embedded as a deterministic
counter of opaque id strings. -/
def freshId (n : Nat) : List Char := "id_".data ++ (Nat.repr n).data

/-- Modelled from the spec: the diagram mutation collaborator
`addTable(table, skipHistory?)` (its implementation lives outside these
sources).  It appends the table to the diagram; with `skipHistory` falsy
it records one undo entry and clears the redo stack, with `skipHistory`
true it leaves both stacks untouched. -/
def addTableM (st : ApplyState) (t : DTable) (skipHistory : Bool) : ApplyState :=
  let st' := { st with diagTables := st.diagTables ++ [t] }
  if skipHistory then st'
  else { st' with undo := st'.undo ++ [⟨"ADD".data, "TABLE".data⟩], redo := [] }

/-- Modelled from the spec: the collaborator
`addRelationship(relationship, skipHistory?)`, analogous to `addTableM`. -/
def addRelationshipM (st : ApplyState) (r : DRel) (skipHistory : Bool) :
    ApplyState :=
  let st' := { st with diagRels := st.diagRels ++ [r] }
  if skipHistory then st'
  else { st' with undo := st'.undo ++ [⟨"ADD".data, "RELATIONSHIP".data⟩], redo := [] }

/-- Modelled from the spec: the collaborator `addNote(note, skipHistory?)`,
analogous to `addTableM`. -/
def addNoteM (st : ApplyState) (n : DNote) (skipHistory : Bool) : ApplyState :=
  let st' := { st with diagNotes := st.diagNotes ++ [n] }
  if skipHistory then st'
  else { st' with undo := st'.undo ++ [⟨"ADD".data, "NOTE".data⟩], redo := [] }

/-- Template-literal rendering of a value (`${v}`), fuelled for nested
arrays; objects render as `[object Object]`.  The host's exception
messages interpolated by the source are abstracted to `TypeError`. -/
def dispJVF : Nat → JVal → List Char
  | _, .jnull => "null".data
  | _, .jbool b => if b then "true".data else "false".data
  | _, .jnum raw => raw
  | _, .jstr s => s
  | _, .jobj _ => "[object Object]".data
  | 0, .jarr _ => []
  | fuel + 1, .jarr xs => joinComma (xs.map (dispJVF fuel))
where
  /-- Array rendering: elements joined with commas. -/
  joinComma : List (List Char) → List Char
    | [] => []
    | [a] => a
    | a :: rest => a ++ (",").data ++ joinComma rest

/-- Template-literal rendering of a possibly-absent value. -/
def dispJV : Option JVal → List Char
  | none => "undefined".data
  | some v => dispJVF 100 v

/-- Error string pushed when adding one table suggestion threw. -/
def tableFailMsg (nameV : Option JVal) : List Char :=
  "Failed to add table ".data ++ dispJV nameV ++ ": TypeError".data

/-- The `X → Y` rendering used by the relationship error strings. -/
def relArrow (fromV toV : Option JVal) : List Char :=
  dispJV fromV ++ " → ".data ++ dispJV toV

/-- Optional chaining `o?.k`. -/
def optChain (o : Option JVal) (k : String) : Option JVal :=
  match o with
  | some (.jobj kvs) => lookupKey k.data kvs
  | _ => none

/-- Field record built for one entry of `tableData.fields`; `.error`
models the `TypeError` of a property access on a `null` entry (caught by
the per-item handler, whose message interpolation then succeeds). -/
def fieldOfJVal (f : JVal) (fid : List Char) : Except Unit DField :=
  match f with
  | .jnull => .error ()
  | _ =>
    .ok
      { id := fid
        name := jGet f "name"
        type := jGet f "type"
        default := jsOr (jGet f "defaultValue") (.jstr [])
        check := []
        primary := jsOr (jGet f "primaryKey") (.jbool false)
        unique := jsOr (jGet f "unique") (.jbool false)
        notNull := jsOr (jGet f "notNull") (.jbool false)
        increment := jsOr (jGet f "increment") (.jbool false)
        comment := jsOr (jGet f "comment") (.jstr []) }

/-- Field list built by `tableData.fields.map(...)`, with one fresh id per
field. -/
def fieldsBuild : List JVal → Nat → Except Unit (List DField × Nat)
  | [], n => .ok ([], n)
  | f :: rest, n => do
    let df ← fieldOfJVal f (freshId n)
    let (dfs, n') ← fieldsBuild rest (n + 1)
    pure (df :: dfs, n')

/-- One iteration of the table loop of `handleApplySuggestion`
(part_004:164-206).  A candidate whose name strict-equals the name of a
table in the `tables` snapshot (the pre-existing tables only, not the
batch) is skipped silently.  A `null` candidate makes both the item and
its catch handler throw (`tableData.name` is interpolated again in the
catch), aborting the whole batch: that is the `.error` case. -/
def stepTable (tables0 : List DTable) (st : ApplyState) (tv : JVal) :
    Except Unit ApplyState :=
  match tv with
  | .jnull => .error ()
  | _ =>
    let nameV := jGet tv "name"
    if (tables0.find? fun t => jsEqO t.name nameV).isSome then .ok st
    else
      match jGet tv "fields" with
      | some (.jarr fs) =>
        let tableId := freshId st.nextId
        match fieldsBuild fs (st.nextId + 1) with
        | .error _ => .ok { st with errors := st.errors ++ [tableFailMsg nameV] }
        | .ok (dfs, nid) =>
          let newT : DTable :=
            { id := tableId, name := nameV,
              x := 100 + 300 * (st.applied : Int), y := 100, locked := false,
              fields := dfs, comment := jsOr (jGet tv "comment") (.jstr []),
              indices := [], color := "#ffffff".data }
          let st' := addTableM st newT true
          .ok { st' with added := st'.added ++ [newT],
                         applied := st'.applied + 1, nextId := nid }
      | _ => .ok { st with errors := st.errors ++ [tableFailMsg nameV] }

/-- One iteration of the relationship loop (part_004:209-255).  Endpoint
names are resolved against the union of the pre-existing snapshot and the
batch-added tables; fields resolve by exact name, then primary flag, then
first field.  A `null` candidate rethrows out of its catch handler. -/
def stepRel (tables0 : List DTable) (st : ApplyState) (rv : JVal) :
    Except Unit ApplyState :=
  match rv with
  | .jnull => .error ()
  | _ =>
    let fromV := jGet rv "fromTable"
    let toV := jGet rv "toTable"
    let allT := tables0 ++ st.added
    match allT.find? fun t => jsEqO t.name fromV,
          allT.find? fun t => jsEqO t.name toV with
    | some srcT, some tgtT =>
      let sF :=
        ((srcT.fields.find? fun f => jsEqO f.name (jGet rv "fromField")).orElse
          fun _ => (srcT.fields.find? fun f => truthy f.primary).orElse
            fun _ => srcT.fields.head?)
      let tF :=
        ((tgtT.fields.find? fun f => jsEqO f.name (jGet rv "toField")).orElse
          fun _ => (tgtT.fields.find? fun f => truthy f.primary).orElse
            fun _ => tgtT.fields.head?)
      match sF, tF with
      | some sf, some tf =>
        let relId := freshId st.nextId
        let newR : DRel :=
          { id := relId, name := "rel_".data ++ relId,
            startTableId := srcT.id, endTableId := tgtT.id,
            startFieldId := sf.id, endFieldId := tf.id,
            cardinality := jsOr (jGet rv "cardinality") (.jstr "one_to_many".data),
            constraint := jsOr (jGet rv "constraint") (.jstr "No action".data),
            color := "#000000".data }
        let st' := addRelationshipM st newR true
        .ok { st' with applied := st'.applied + 1, nextId := st.nextId + 1 }
      | _, _ =>
        .ok { st with errors := st.errors ++
          ["Could not find appropriate fields for relationship: ".data ++
            relArrow fromV toV] }
    | _, _ =>
      .ok { st with errors := st.errors ++
        ["Could not find tables for relationship: ".data ++ relArrow fromV toV] }

/-- Error string of the note catch handler. -/
def noteFailMsg : List Char := "Failed to add note: TypeError".data

/-- One iteration of the note loop (part_004:258-279).  The note is added
to the diagram before the success log line runs
`newNote.content.substring(0, 50)`; when `content` is not a string that
call throws, so the note stays added but `appliedCount` is not bumped and
an error is recorded.  A `null` candidate is caught (its handler
interpolates nothing), so this step is total. -/
def stepNote (st : ApplyState) (nv : JVal) : ApplyState :=
  match nv with
  | .jnull => { st with errors := st.errors ++ [noteFailMsg] }
  | _ =>
    let contentV := jGet nv "content"
    let posV := jGet nv "position"
    let xV := jsOr (optChain posV "x")
      (.jnum (Nat.repr (100 + 200 * st.applied)).data)
    let yV := jsOr (optChain posV "y")
      (.jnum (Nat.repr (100 + 100 * st.applied)).data)
    let noteId := freshId st.nextId
    let newN : DNote :=
      { id := noteId, content := contentV, x := xV, y := yV,
        width := 200, height := 100, color := "#ffffcc".data }
    let st' := { addNoteM st newN true with nextId := st.nextId + 1 }
    match contentV with
    | some (.jstr _) => { st' with applied := st'.applied + 1 }
    | _ => { st' with errors := st'.errors ++ [noteFailMsg] }

/-- Snapshot of the diagram handed to the applier. -/
structure Diagram : Type where
  tables : List DTable
  relationships : List DRel
  notes : List DNote

/-- Initial applier state over a diagram snapshot and the current
undo/redo stacks. -/
def initialState (d : Diagram) (undo0 redo0 : List UndoEntry) : ApplyState :=
  { applied := 0, errors := [], added := [], diagTables := d.tables,
    diagRels := d.relationships, diagNotes := d.notes, undo := undo0,
    redo := redo0, nextId := 0 }

/-- Embedding of `handleApplySuggestion` (part_004:151-324): parse the
message content, then apply tables, relationships and notes in that
order.  The `.error` case is the outer catch (`setErrorState`), reached
only by the rethrowing item handlers modelled above. -/
def handleApplySuggestion (content : String) (d : Diagram)
    (undo0 redo0 : List UndoEntry) : Except Unit ApplyState := do
  let sugg ← parseAIResponse content
  let st := initialState d undo0 redo0
  let st ← sugg.tables.foldlM (stepTable d.tables) st
  let st ← sugg.relationships.foldlM (stepRel d.tables) st
  pure (sugg.notes.foldl stepNote st)

/-! ### The context builder (`buildDiagramContext`, `aiHelpers.js:6-53`)

The live diagram state handled by the context builder is the editor's own
well-typed store, so it is embedded with typed records; absent optional
properties are `Option`, and JavaScript `||` defaulting on strings turns
the empty string into the default. -/

/-- Live diagram field as seen by the context builder. -/
structure CField : Type where
  name : String
  type : String
  primary : Option Bool
  notNull : Option Bool
  unique : Option Bool
  increment : Option Bool
  comment : Option String
  default : Option String

/-- Live diagram table as seen by the context builder (`fields` may be
absent: the source guards with `table.fields || []`). -/
structure CTable : Type where
  id : String
  name : String
  fields : Option (List CField)
  comment : Option String
  position : Int × Int

/-- Live diagram relationship, with opaque table/field identifiers. -/
structure CRel : Type where
  id : String
  name : Option String
  startTableId : String
  endTableId : String
  startFieldId : String
  endFieldId : String
  cardinality : String
  constraint : Option String

/-- Live subject area. -/
structure CArea : Type where
  name : String
  color : String
  position : Int × Int

/-- Live note. -/
structure CNoteB : Type where
  content : String
  position : Int × Int

/-- Argument of `buildDiagramContext` (the destructured diagram state). -/
structure BuildInput : Type where
  tables : List CTable
  relationships : List CRel
  database : String
  areas : List CArea
  notes : List CNoteB
  types : Option (List String)
  enums : Option (List String)

/-- Context field projection. -/
structure CtxField : Type where
  name : String
  type : String
  primaryKey : Bool
  notNull : Bool
  unique : Bool
  increment : Bool
  comment : String
  default : String

/-- Context table projection. -/
structure CtxTable : Type where
  name : String
  fields : List CtxField
  comment : String
  position : Int × Int

/-- Context relationship projection (table references resolved to names,
field references passed through as identifiers). -/
structure CtxRel : Type where
  fromTable : String
  toTable : String
  fromField : String
  toField : String
  cardinality : String
  constraint : String
  name : String

/-- The DiagramContext produced for prompting. -/
structure DiagramContext : Type where
  database : String
  tables : List CtxTable
  relationships : List CtxRel
  areas : List CArea
  notes : List CNoteB
  types : List String
  enums : List String

/-- JavaScript `a || d` for a possibly-absent string (the empty string is
falsy). -/
def jsOrStr (o : Option String) (d : String) : String :=
  match o with
  | some s => if s = "" then d else s
  | none => d

/-- Relationship projection of the context builder: both table ids are
looked up in the table collection; a failed lookup (or an empty table
name) yields `"unknown"`, and the field identifiers are copied as-is. -/
def resolveRelC (tables : List CTable) (r : CRel) : CtxRel :=
  let sT := tables.find? fun t => t.id == r.startTableId
  let eT := tables.find? fun t => t.id == r.endTableId
  { fromTable := jsOrStr (sT.map CTable.name) "unknown"
    toTable := jsOrStr (eT.map CTable.name) "unknown"
    fromField := r.startFieldId
    toField := r.endFieldId
    cardinality := r.cardinality
    constraint := jsOrStr r.constraint "No action"
    name := jsOrStr r.name ("rel_" ++ r.id) }

/-- Prefix test under optional case-insensitivity, mirroring how a literal
regexp matches at a position. -/
def startsWithCIb (ci : Bool) : List Char → List Char → Bool
  | [], _ => true
  | _ :: _, [] => false
  | a :: pt, c :: ct => chEq ci a c && startsWithCIb ci pt ct

/-- Value view of stage 4 (total by the totality theorem). -/
def stage4RelsOk (s : List Char) : List JVal :=
  (stage4Rels s).toOption.getD []

/-- Embedding of `buildDiagramContext` (`aiHelpers.js:6-53`). -/
def buildDiagramContext (ds : BuildInput) : DiagramContext :=
  { database := ds.database
    tables := ds.tables.map fun t =>
      { name := t.name
        fields := (t.fields.getD []).map fun f =>
          { name := f.name, type := f.type,
            primaryKey := f.primary.getD false,
            notNull := f.notNull.getD false,
            unique := f.unique.getD false,
            increment := f.increment.getD false,
            comment := f.comment.getD "",
            default := f.default.getD "" }
        comment := t.comment.getD ""
        position := t.position }
    relationships := ds.relationships.map (resolveRelC ds.tables)
    areas := ds.areas
    notes := ds.notes
    types := ds.types.getD []
    enums := ds.enums.getD [] }

/-! ### Concrete fixtures used by the claim theorems -/

/-- The end-to-end scenario input of the spec. -/
def c1in : String := "I recommend adding table orders"

/-- A text with one malformed fenced JSON block (whose text also feeds the
stage-3 heuristics) followed by one well-formed block. -/
def c3in : String :=
  "```json\nadd table foo \x7b\n```\n```json\n\x7b\"tables\":[\x7b\"name\":\"bar\",\"fields\":[]\x7d]\x7d\n```"

/-- The table contributed by the well-formed block of `c3in`. -/
def barTableJ : JVal :=
  .jobj [("name".data, .jstr "bar".data), ("fields".data, .jarr [])]

/-- Content of the malformed block of `c3in`. -/
def c3b1 : List Char := "add table foo \x7b".data

/-- Content of the well-formed block of `c3in`. -/
def c3b2 : List Char :=
  "\x7b\"tables\":[\x7b\"name\":\"bar\",\"fields\":[]\x7d]\x7d".data

/-- The value `JSON.parse` yields for the well-formed block of `c3in`. -/
def c3val : JVal := .jobj [("tables".data, .jarr [barTableJ])]

/-- A message whose only suggestion is one JSON-block table. -/
def c4in : String :=
  "```json\n\x7b\"tables\":[\x7b\"name\":\"users\",\"fields\":[]\x7d]\x7d\n```"

/-- The relationship scenario input of the spec. -/
def c8in : String := "link posts to users"

/-- A text whose fenced JSON block contributes a table while stages 3–5
all produce nothing, and which contains the vocabulary noun `users`. -/
def c9in : String :=
  "```json\n\x7b\"tables\":[\x7b\"name\":\"users\",\"fields\":[]\x7d]\x7d\n```"

/-- The table contributed by the JSON block of `c9in` (and `c4in`). -/
def usersTableJ : JVal :=
  .jobj [("name".data, .jstr "users".data), ("fields".data, .jarr [])]

/-- An empty diagram snapshot. -/
def emptyDiagram : Diagram := ⟨[], [], []⟩

/-- A pre-existing undo entry, to observe that the applier leaves the
stacks alone. -/
def undoW : UndoEntry := ⟨"EXISTING".data, "UNDO".data⟩

/-- A pre-existing redo entry. -/
def redoW : UndoEntry := ⟨"EXISTING".data, "REDO".data⟩

/-- A pre-existing diagram field named `id`. -/
def usersFieldW : DField :=
  ⟨"f_id".data, some (.jstr "id".data), some (.jstr "INTEGER".data),
   .jstr [], [], .jbool true, .jbool false, .jbool false, .jbool false,
   .jstr []⟩

/-- A pre-existing diagram table named `users`. -/
def usersTableW : DTable :=
  ⟨"t_users".data, some (.jstr "users".data), 0, 0, false, [usersFieldW],
   .jstr [], [], []⟩

/-- Applier state over a diagram holding only `usersTableW`. -/
def applyStW : ApplyState := initialState ⟨[usersTableW], [], []⟩ [] []

/-- A relationship suggestion between two absent tables. -/
def relSuggW : JVal := mkRelObj "posts".data "users".data

/-- A live table whose single field is named `id` but has the opaque
identifier `f9`. -/
def c7table : CTable :=
  ⟨"t1", "users",
   some [⟨"id", "INTEGER", some true, none, none, none, none, none⟩],
   none, (0, 0)⟩

/-- A live relationship from `t1.f9` to the non-existent table `zzz`. -/
def c7rel : CRel := ⟨"r1", none, "t1", "zzz", "f9", "f8", "one_to_many", none⟩

/-- The diagram state of the context-builder counterexample. -/
def c7ds : BuildInput := ⟨[c7table], [c7rel], "generic", [], [], none, none⟩

/-! ### Engine lemmas

These support the totality theorem for `parseAIResponse`: the only
exception the source can attempt is `toTable.toLowerCase()` on
`undefined`, which would require a stage-4 match that does not contain a
separator token; the lemmas show every match of the relationship patterns
contains one, so the split always has a second part. -/

theorem runs_zero {rx : Rx} {p : Option Char} {s : List Char} :
    runs 0 rx p s = [] := rfl

theorem runs_eps {f : Nat} {p : Option Char} {s : List Char} :
    runs (f + 1) .eps p s = [(p, s)] := rfl

theorem runs_cls {f : Nat} {pc : Char → Bool} {p : Option Char}
    {c : Char} {t : List Char} :
    runs (f + 1) (.cls pc) p (c :: t) =
      if pc c then [(some c, t)] else [] := rfl

theorem runs_cls_nil {f : Nat} {pc : Char → Bool} {p : Option Char} :
    runs (f + 1) (.cls pc) p [] = [] := rfl

theorem runs_cat {f : Nat} {a b : Rx} {p : Option Char} {s : List Char} :
    runs (f + 1) (.cat a b) p s =
      (runs f a p s).flatMap fun pr => runs f b pr.1 pr.2 := rfl

theorem runs_alt {f : Nat} {a b : Rx} {p : Option Char} {s : List Char} :
    runs (f + 1) (.alt a b) p s = runs f a p s ++ runs f b p s := rfl

theorem mem_runs_star {f : Nat} {a : Rx} {g : Bool} {p : Option Char}
    {s : List Char} {x : Option Char × List Char} :
    x ∈ runs (f + 1) (.star a g) p s ↔
      x = (p, s) ∨ ∃ pr, (pr ∈ runs f a p s ∧ pr.2.length < s.length) ∧
        x ∈ runs f (.star a g) pr.1 pr.2 := by
  show x ∈ (let more := ((runs f a p s).filter fun pr =>
      pr.2.length < s.length).flatMap fun pr => runs f (.star a g) pr.1 pr.2
    if g then more ++ [(p, s)] else (p, s) :: more) ↔ _
  cases g <;>
    simp [List.mem_flatMap, List.mem_filter, List.mem_append, and_assoc,
      or_comm]

theorem mem_runs_wordB {f : Nat} {p : Option Char} {s : List Char}
    {x : Option Char × List Char} (h : x ∈ runs (f + 1) .wordB p s) :
    x = (p, s) := by
  revert h
  show x ∈ (if _ then [(p, s)] else []) → _
  split
  · simp
  · simp

theorem runs_suffix {f : Nat} {rx : Rx} {p : Option Char} {s : List Char}
    {x : Option Char × List Char} (h : x ∈ runs f rx p s) : x.2 <:+ s := by
  induction f generalizing rx p s x with
  | zero => simp [runs_zero] at h
  | succ f ih =>
    cases rx with
    | eps =>
      rw [runs_eps, List.mem_singleton] at h
      subst h; exact List.suffix_refl s
    | cls pc =>
      cases s with
      | nil => simp [runs_cls_nil] at h
      | cons c t =>
        rw [runs_cls] at h
        by_cases hc : pc c
        · rw [if_pos hc, List.mem_singleton] at h
          subst h; exact List.suffix_cons c t
        · simp [if_neg hc] at h
    | cat a b =>
      rw [runs_cat, List.mem_flatMap] at h
      obtain ⟨pr, hpr, hx⟩ := h
      exact (ih hx).trans (ih hpr)
    | alt a b =>
      rw [runs_alt, List.mem_append] at h
      rcases h with h | h <;> exact ih h
    | star a g =>
      rcases mem_runs_star.mp h with h | ⟨pr, ⟨hpra, _⟩, hx⟩
      · subst h; exact List.suffix_refl s
      · exact (ih hx).trans (ih hpra)
    | wordB =>
      rw [mem_runs_wordB h]

theorem runs_mono_succ {f : Nat} {rx : Rx} {p : Option Char} {s : List Char}
    {x : Option Char × List Char} (h : x ∈ runs f rx p s) :
    x ∈ runs (f + 1) rx p s := by
  induction f generalizing rx p s x with
  | zero => simp [runs_zero] at h
  | succ f ih =>
    cases rx with
    | eps => exact h
    | cls pc => cases s <;> exact h
    | cat a b =>
      rw [runs_cat, List.mem_flatMap] at h ⊢
      obtain ⟨pr, hpr, hx⟩ := h
      exact ⟨pr, ih hpr, ih hx⟩
    | alt a b =>
      rw [runs_alt, List.mem_append] at h ⊢
      rcases h with h | h
      · exact Or.inl (ih h)
      · exact Or.inr (ih h)
    | star a g =>
      rcases mem_runs_star.mp h with h | ⟨pr, ⟨hpra, hlen⟩, hx⟩
      · exact mem_runs_star.mpr (Or.inl h)
      · exact mem_runs_star.mpr (Or.inr ⟨pr, ⟨ih hpra, hlen⟩, ih hx⟩)
    | wordB => exact h

theorem runs_mono {f g : Nat} (hfg : f ≤ g) {rx : Rx} {p : Option Char}
    {s : List Char} {x : Option Char × List Char} (h : x ∈ runs f rx p s) :
    x ∈ runs g rx p s := by
  induction hfg with
  | refl => exact h
  | step _ ih => exact runs_mono_succ ih

theorem startsWithCIb_length {ci : Bool} {t s : List Char}
    (h : startsWithCIb ci t s = true) : t.length ≤ s.length := by
  induction t generalizing s with
  | nil => simp
  | cons a pt ih =>
    cases s with
    | nil => simp [startsWithCIb] at h
    | cons c ct =>
      simp only [startsWithCIb, Bool.and_eq_true] at h
      simpa [List.length_cons] using Nat.succ_le_succ (ih h.2)

theorem startsWithCIb_take {ci : Bool} {t l : List Char} {n : Nat}
    (h : startsWithCIb ci t l = true) (hn : t.length ≤ n) :
    startsWithCIb ci t (l.take n) = true := by
  induction t generalizing l n with
  | nil => rfl
  | cons a pt ih =>
    cases l with
    | nil => simp [startsWithCIb] at h
    | cons c ct =>
      cases n with
      | zero => simp at hn
      | succ n =>
        simp only [List.take_succ_cons, startsWithCIb, Bool.and_eq_true] at h ⊢
        exact ⟨h.1, ih h.2 (by simpa using hn)⟩

theorem runs_strRx_elim {ci : Bool} {t : List Char} {f : Nat}
    {p : Option Char} {s : List Char} {x : Option Char × List Char}
    (h : x ∈ runs f (strRx ci t) p s) :
    startsWithCIb ci t s = true ∧ x.2 = s.drop t.length := by
  induction t generalizing f p s x with
  | nil =>
    cases f with
    | zero => simp [runs_zero] at h
    | succ f =>
      rw [show strRx ci [] = .eps from rfl, runs_eps, List.mem_singleton] at h
      subst h; exact ⟨rfl, rfl⟩
  | cons a pt ih =>
    cases f with
    | zero => simp [runs_zero] at h
    | succ f =>
      rw [show strRx ci (a :: pt) = .cat (.cls (chEq ci a)) (strRx ci pt)
          from rfl, runs_cat, List.mem_flatMap] at h
      obtain ⟨pr, hpr, hx⟩ := h
      cases f with
      | zero => simp [runs_zero] at hpr
      | succ f =>
        cases s with
        | nil => simp [runs_cls_nil] at hpr
        | cons c ct =>
          rw [runs_cls] at hpr
          by_cases hc : chEq ci a c
          · rw [if_pos hc, List.mem_singleton] at hpr
            subst hpr
            obtain ⟨h1, h2⟩ := ih hx
            constructor
            · simp [startsWithCIb, hc, h1]
            · simpa using h2
          · simp [if_neg hc] at hpr

theorem runs_strRx_intro {ci : Bool} {t : List Char} {f : Nat}
    {p : Option Char} {s : List Char} (h : startsWithCIb ci t s = true)
    (hf : t.length + 1 ≤ f) :
    ∃ pv, (pv, s.drop t.length) ∈ runs f (strRx ci t) p s := by
  induction t generalizing f p s with
  | nil =>
    obtain ⟨f, rfl⟩ : ∃ g, f = g + 1 := ⟨f - 1, by omega⟩
    exact ⟨p, by rw [show strRx ci [] = .eps from rfl, runs_eps]; simp⟩
  | cons a pt ih =>
    cases s with
    | nil => simp [startsWithCIb] at h
    | cons c ct =>
      simp only [startsWithCIb, Bool.and_eq_true] at h
      obtain ⟨f, rfl⟩ : ∃ g, f = g + 1 := ⟨f - 1, by omega⟩
      have hf' : pt.length + 1 ≤ f := by simp at hf; omega
      obtain ⟨pv, hpv⟩ := @ih f (some c) ct h.2 hf'
      refine ⟨pv, ?_⟩
      rw [show strRx ci (a :: pt) = .cat (.cls (chEq ci a)) (strRx ci pt)
          from rfl, runs_cat, List.mem_flatMap]
      obtain ⟨f, rfl⟩ : ∃ g, f = g + 1 := ⟨f - 1, by omega⟩
      refine ⟨(some c, ct), ?_, ?_⟩
      · rw [runs_cls, if_pos h.1]; simp
      · simpa using hpv

theorem runs_sepTokens_elim {f : Nat} {p : Option Char} {s : List Char}
    {x : Option Char × List Char} (h : x ∈ runs f sepTokens p s) :
    ∃ t ∈ sepTokenStrs, startsWithCIb true t s = true ∧
      x.2 = s.drop t.length := by
  cases f with
  | zero => simp [runs_zero] at h
  | succ f =>
    rw [show sepTokens = .alt (strCI "to") (.alt (strCI "->")
        (.alt (strCI "references") (strCI "with"))) from rfl,
      runs_alt, List.mem_append] at h
    rcases h with h | h
    · obtain ⟨h1, h2⟩ := runs_strRx_elim h
      exact ⟨"to".data, by simp [sepTokenStrs], h1, h2⟩
    · cases f with
      | zero => simp [runs_zero] at h
      | succ f =>
        rw [runs_alt, List.mem_append] at h
        rcases h with h | h
        · obtain ⟨h1, h2⟩ := runs_strRx_elim h
          exact ⟨"->".data, by simp [sepTokenStrs], h1, h2⟩
        · cases f with
          | zero => simp [runs_zero] at h
          | succ f =>
            rw [runs_alt, List.mem_append] at h
            rcases h with h | h
            · obtain ⟨h1, h2⟩ := runs_strRx_elim h
              exact ⟨"references".data, by simp [sepTokenStrs], h1, h2⟩
            · obtain ⟨h1, h2⟩ := runs_strRx_elim h
              exact ⟨"with".data, by simp [sepTokenStrs], h1, h2⟩

theorem runs_sepTokens_intro {t : List Char} (ht : t ∈ sepTokenStrs)
    {s : List Char} (h : startsWithCIb true t s = true) {f : Nat}
    (hf : 15 ≤ f) {p : Option Char} :
    ∃ pv, (pv, s.drop t.length) ∈ runs f sepTokens p s := by
  obtain ⟨f, rfl⟩ : ∃ g, f = g + 1 := ⟨f - 1, by omega⟩
  rw [show sepTokens = .alt (strCI "to") (.alt (strCI "->")
      (.alt (strCI "references") (strCI "with"))) from rfl]
  simp only [sepTokenStrs, List.mem_cons, List.not_mem_nil, or_false] at ht
  rcases ht with rfl | rfl | rfl | rfl
  · obtain ⟨pv, hpv⟩ := @runs_strRx_intro true "to".data f p s h (by simp; omega)
    exact ⟨pv, by rw [runs_alt, List.mem_append]; exact Or.inl hpv⟩
  · obtain ⟨f, rfl⟩ : ∃ g, f = g + 1 := ⟨f - 1, by omega⟩
    obtain ⟨pv, hpv⟩ := @runs_strRx_intro true "->".data f p s h (by simp; omega)
    exact ⟨pv, by
      rw [runs_alt, List.mem_append]
      exact Or.inr (by rw [runs_alt, List.mem_append]; exact Or.inl hpv)⟩
  · obtain ⟨f, rfl⟩ : ∃ g, f = g + 1 := ⟨f - 1, by omega⟩
    obtain ⟨f, rfl⟩ : ∃ g, f = g + 1 := ⟨f - 1, by omega⟩
    obtain ⟨pv, hpv⟩ := @runs_strRx_intro true "references".data f p s h (by simp; omega)
    exact ⟨pv, by
      rw [runs_alt, List.mem_append]
      refine Or.inr ?_
      rw [runs_alt, List.mem_append]
      refine Or.inr ?_
      rw [runs_alt, List.mem_append]
      exact Or.inl hpv⟩
  · obtain ⟨f, rfl⟩ : ∃ g, f = g + 1 := ⟨f - 1, by omega⟩
    obtain ⟨f, rfl⟩ : ∃ g, f = g + 1 := ⟨f - 1, by omega⟩
    obtain ⟨pv, hpv⟩ := @runs_strRx_intro true "with".data f p s h (by simp; omega)
    exact ⟨pv, by
      rw [runs_alt, List.mem_append]
      refine Or.inr ?_
      rw [runs_alt, List.mem_append]
      refine Or.inr ?_
      rw [runs_alt, List.mem_append]
      exact Or.inr hpv⟩

theorem runs_star_eps {f : Nat} {a : Rx} {g : Bool} {p : Option Char}
    {s : List Char} (hf : 1 ≤ f) : (p, s) ∈ runs f (.star a g) p s := by
  obtain ⟨f, rfl⟩ : ∃ g', f = g' + 1 := ⟨f - 1, by omega⟩
  exact mem_runs_star.mpr (Or.inl rfl)

theorem sepSplitRx_runs_ne {t u : List Char} (ht : t ∈ sepTokenStrs)
    (h : startsWithCIb true t u = true) {f : Nat} (hf : 20 ≤ f)
    {p : Option Char} : runs f sepSplitRx p u ≠ [] := by
  obtain ⟨f, rfl⟩ : ∃ g, f = g + 1 := ⟨f - 1, by omega⟩
  rw [show sepSplitRx = .cat wsStar (.cat sepTokens wsStar) from rfl, runs_cat]
  obtain ⟨f, rfl⟩ : ∃ g, f = g + 1 := ⟨f - 1, by omega⟩
  obtain ⟨pv, hpv⟩ := @runs_sepTokens_intro t ht u h f (by omega) p
  refine @List.ne_nil_of_mem _ (pv, u.drop t.length) _ ?_
  rw [List.mem_flatMap]
  refine ⟨(p, u), runs_star_eps (by omega), ?_⟩
  rw [runs_cat, List.mem_flatMap]
  exact ⟨(pv, u.drop t.length), hpv, runs_star_eps (by omega)⟩

theorem runsHeadLen_ne_none {rx : Rx} {p : Option Char} {u : List Char}
    (h : runs (fuelFor u) rx p u ≠ []) : runsHeadLen rx p u ≠ none := by
  unfold runsHeadLen
  cases hh : (runs (fuelFor u) rx p u).head? with
  | none => exact absurd (List.head?_eq_none_iff.mp hh) h
  | some x => simp

theorem scanFirst_eq_some {rx : Rx} {p : Option Char} {s : List Char}
    {len : Nat} (hr : runsHeadLen rx p s = some len) :
    scanFirst rx p s = some (0, len) := by
  unfold scanFirst; rw [hr]

theorem scanFirst_eq_nil_none {rx : Rx} {p : Option Char}
    (hr : runsHeadLen rx p [] = none) : scanFirst rx p [] = none := by
  unfold scanFirst; rw [hr]

theorem scanFirst_eq_cons_none {rx : Rx} {p : Option Char} {c : Char}
    {t : List Char} (hr : runsHeadLen rx p (c :: t) = none) :
    scanFirst rx p (c :: t) =
      (scanFirst rx (some c) t).map fun il => (il.1 + 1, il.2) := by
  conv_lhs => rw [scanFirst.eq_def]
  rw [hr]

theorem scanFirst_isSome {rx : Rx} {s : List Char} {k : Nat}
    (h : ∀ q, runsHeadLen rx q (s.drop k) ≠ none) {p : Option Char} :
    scanFirst rx p s ≠ none := by
  induction s generalizing k p with
  | nil =>
    have h0 := h p
    rw [List.drop_nil] at h0
    cases hr : runsHeadLen rx p [] with
    | none => exact absurd hr h0
    | some len => rw [scanFirst_eq_some hr]; simp
  | cons c t ih =>
    cases hr : runsHeadLen rx p (c :: t) with
    | some len => rw [scanFirst_eq_some hr]; simp
    | none =>
      rw [scanFirst_eq_cons_none hr]
      cases k with
      | zero => exact absurd hr (by simpa using h p)
      | succ k =>
        have hne := @ih k (fun q => by simpa using h q) (some c)
        cases hsf : scanFirst rx (some c) t with
        | none => exact absurd hsf hne
        | some il => simp [hsf]

theorem jsSplitAux_length_pos {rx : Rx} {p : Option Char} {s : List Char}
    {fuel : Nat} : 1 ≤ (jsSplitAux rx p s fuel).length := by
  cases fuel with
  | zero => simp [jsSplitAux]
  | succ fuel =>
    unfold jsSplitAux
    cases hs : scanFirst rx p s with
    | none => simp
    | some il => simp

theorem jsSplit_len2 {rx : Rx} {s : List Char}
    (h : scanFirst rx none s ≠ none) : 2 ≤ (jsSplit rx s).length := by
  unfold jsSplit jsSplitAux
  cases hs : scanFirst rx none s with
  | none => exact absurd hs h
  | some il =>
    simp only [List.length_cons]
    have := @jsSplitAux_length_pos rx (advPrev none s (il.1 + max il.2 1))
      (s.drop (il.1 + max il.2 1)) s.length
    omega

theorem suffix_drop_eq {u s : List Char} (h : u <:+ s) :
    s.drop (s.length - u.length) = u := by
  obtain ⟨pre, rfl⟩ := h
  have : (pre ++ u).length - u.length = pre.length := by
    simp [List.length_append]
  rw [this, List.drop_left]

theorem cat_sep_token {A B : Rx} {f : Nat} {p : Option Char} {s : List Char}
    {x : Option Char × List Char}
    (h : x ∈ runs f (.cat A (.cat sepTokens B)) p s) :
    ∃ k t, t ∈ sepTokenStrs ∧ startsWithCIb true t (s.drop k) = true ∧
      k + t.length ≤ s.length - x.2.length := by
  cases f with
  | zero => simp [runs_zero] at h
  | succ f =>
    rw [runs_cat, List.mem_flatMap] at h
    obtain ⟨pr1, hpr1, hx⟩ := h
    cases f with
    | zero => simp [runs_zero] at hx
    | succ f =>
      rw [runs_cat, List.mem_flatMap] at hx
      obtain ⟨pr2, hpr2, hx2⟩ := hx
      obtain ⟨t, htm, hsw, hdrop⟩ := runs_sepTokens_elim hpr2
      have hsuf1 : pr1.2 <:+ s := runs_suffix hpr1
      have hsuf2 : x.2 <:+ pr2.2 := runs_suffix hx2
      have hlen_t : t.length ≤ pr1.2.length := startsWithCIb_length hsw
      refine ⟨s.length - pr1.2.length, t, htm, ?_, ?_⟩
      · rw [suffix_drop_eq hsuf1]; exact hsw
      · have h1 : pr1.2.length ≤ s.length := hsuf1.length_le
        have h2 : x.2.length ≤ pr2.2.length := hsuf2.length_le
        have h3 : pr2.2.length = pr1.2.length - t.length := by
          rw [hdrop, List.length_drop]
        omega

theorem scanFirst_shape {rx : Rx} {p : Option Char} {s : List Char}
    {i len : Nat} (h : scanFirst rx p s = some (i, len)) :
    ∃ q, runsHeadLen rx q (s.drop i) = some len := by
  induction s generalizing p i with
  | nil =>
    cases hr : runsHeadLen rx p [] with
    | none => rw [scanFirst_eq_nil_none hr] at h; simp at h
    | some l =>
      rw [scanFirst_eq_some hr] at h
      simp only [Option.some.injEq, Prod.mk.injEq] at h
      exact ⟨p, by rw [← h.1, List.drop_nil, hr, h.2]⟩
  | cons c t ih =>
    cases hr : runsHeadLen rx p (c :: t) with
    | some l =>
      rw [scanFirst_eq_some hr] at h
      simp only [Option.some.injEq, Prod.mk.injEq] at h
      exact ⟨p, by rw [← h.1, List.drop_zero, hr, h.2]⟩
    | none =>
      rw [scanFirst_eq_cons_none hr] at h
      cases hsf : scanFirst rx (some c) t with
      | none => rw [hsf] at h; simp at h
      | some il =>
        rw [hsf] at h
        simp only [Option.map_some', Option.some.injEq, Prod.mk.injEq] at h
        have hil : scanFirst rx (some c) t = some (il.1, len) := by
          rw [hsf, ← h.2]
        obtain ⟨q, hq⟩ := ih hil
        refine ⟨q, ?_⟩
        rw [← h.1, List.drop_succ_cons]
        exact hq

theorem matchAllAux_shape {rx : Rx} {p : Option Char} {s : List Char}
    {fuel : Nat} {m : List Char} (h : m ∈ matchAllAux rx p s fuel) :
    ∃ q u len, runsHeadLen rx q u = some len ∧ m = u.take len := by
  induction fuel generalizing p s with
  | zero => simp [matchAllAux] at h
  | succ fuel ih =>
    unfold matchAllAux at h
    cases hs : scanFirst rx p s with
    | none => rw [hs] at h; simp at h
    | some il =>
      rw [hs] at h
      simp only [List.mem_cons] at h
      rcases h with h | h
      · obtain ⟨q, hq⟩ := @scanFirst_shape rx p s il.1 il.2 (by rw [hs])
        exact ⟨q, s.drop il.1, il.2, hq, h⟩
      · exact ih h

theorem matchAll_token {A B : Rx} {s m : List Char}
    (h : m ∈ matchAll (.cat A (.cat sepTokens B)) s) :
    ∃ k t, t ∈ sepTokenStrs ∧ startsWithCIb true t (m.drop k) = true := by
  obtain ⟨q, u, len, hq, rfl⟩ := matchAllAux_shape h
  unfold runsHeadLen at hq
  cases hh : (runs (fuelFor u) (.cat A (.cat sepTokens B)) q u).head? with
  | none => rw [hh] at hq; simp at hq
  | some x =>
    rw [hh] at hq
    simp only [Option.map_some', Option.some.injEq] at hq
    have hx : x ∈ runs (fuelFor u) (.cat A (.cat sepTokens B)) q u :=
      List.mem_of_mem_head? (by rw [hh]; exact rfl)
    obtain ⟨k, t, htm, hsw, hle⟩ := cat_sep_token hx
    refine ⟨k, t, htm, ?_⟩
    rw [List.drop_take]
    exact startsWithCIb_take hsw (by omega)

theorem relFromMatch_isOk {m : List Char}
    (h : ∃ k t, t ∈ sepTokenStrs ∧ startsWithCIb true t (m.drop k) = true) :
    ∃ o, relFromMatch m = .ok o := by
  obtain ⟨k, t, htm, hsw⟩ := h
  have hscan : scanFirst sepSplitRx none m ≠ none :=
    @scanFirst_isSome sepSplitRx m k
      (fun q => runsHeadLen_ne_none
        (sepSplitRx_runs_ne htm hsw (by simp [fuelFor]))) none
  have hlen : 2 ≤ (jsSplit sepSplitRx m).length := jsSplit_len2 hscan
  simp only [relFromMatch]
  split
  · exact ⟨_, rfl⟩
  · cases hp : (jsSplit sepSplitRx m).get? 1 with
    | none =>
      have := List.get?_eq_none.mp hp
      omega
    | some p1 =>
      dsimp only
      split
      · exact ⟨_, rfl⟩
      · split
        · exact ⟨_, rfl⟩
        · exact ⟨_, rfl⟩

theorem relMapM_isOk {ms : List (List Char)}
    (h : ∀ m ∈ ms, ∃ o, relFromMatch m = .ok o) : ∃ l, relMapM ms = .ok l := by
  induction ms with
  | nil => exact ⟨[], rfl⟩
  | cons m rest ih =>
    obtain ⟨o, ho⟩ := h m (by simp)
    obtain ⟨l, hl⟩ := ih fun x hx => h x (by simp [hx])
    exact ⟨o :: l, by simp only [relMapM, ho, hl]; rfl⟩

theorem relsOfPattern_isOk {A B : Rx} {s : List Char} :
    ∃ l, relsOfPattern (.cat A (.cat sepTokens B)) s = .ok l := by
  obtain ⟨l, hl⟩ :=
    @relMapM_isOk (matchAll (.cat A (.cat sepTokens B)) s)
      (fun m hm => relFromMatch_isOk (matchAll_token hm))
  exact ⟨l.filterMap id, by simp only [relsOfPattern, hl]; rfl⟩

theorem stage4Rels_isOk (s : List Char) : ∃ l, stage4Rels s = .ok l := by
  obtain ⟨a, ha⟩ : ∃ l, relsOfPattern relPat1 s = .ok l := relsOfPattern_isOk
  obtain ⟨b, hb⟩ : ∃ l, relsOfPattern relPat2 s = .ok l := relsOfPattern_isOk
  obtain ⟨c, hc⟩ : ∃ l, relsOfPattern relPat3 s = .ok l := relsOfPattern_isOk
  exact ⟨a ++ b ++ c, by simp only [stage4Rels, ha, hb, hc]; rfl⟩

theorem parseAIResponse_isOk (s : String) :
    ∃ r, parseAIResponse s = .ok r := by
  obtain ⟨l, hl⟩ := stage4Rels_isOk s.data
  exact ⟨_, by simp only [parseAIResponse, hl]; rfl⟩

theorem parseAIResponse_eq_ok (s : String) :
    parseAIResponse s = .ok (parseOk s) := by
  obtain ⟨r, hr⟩ := parseAIResponse_isOk s
  rw [hr]
  simp [parseOk, hr, Except.toOption]

theorem parseOk_eq (s : String) :
    parseOk s =
      { tables := ((jsonStage s.data).1 ++ stage3Tables s.data) ++
          (if (((jsonStage s.data).1 ++ stage3Tables s.data).isEmpty &&
               ((jsonStage s.data).2.1 ++ stage4RelsOk s.data).isEmpty &&
               ((jsonStage s.data).2.2 ++ stage5Notes s.data).isEmpty)
           then (extractGeneralSuggestions s.data).1 else [])
        relationships := ((jsonStage s.data).2.1 ++ stage4RelsOk s.data) ++
          (if (((jsonStage s.data).1 ++ stage3Tables s.data).isEmpty &&
               ((jsonStage s.data).2.1 ++ stage4RelsOk s.data).isEmpty &&
               ((jsonStage s.data).2.2 ++ stage5Notes s.data).isEmpty)
           then (extractGeneralSuggestions s.data).2.1 else [])
        notes := (jsonStage s.data).2.2 ++ stage5Notes s.data
        optimizations := []
        sqlQueries := sqlStage s.data
        general := [] } := by
  obtain ⟨l, hl⟩ := stage4Rels_isOk s.data
  have h4 : stage4RelsOk s.data = l := by
    simp [stage4RelsOk, hl, Except.toOption]
  simp only [parseOk, parseAIResponse, hl, h4, Except.toOption, apply_ite]
  rfl

/-! ### Claim theorems -/

/-- Claim C2 (confirmed): `parseAIResponse` returns without raising for
every input string — the only exception the source can attempt, the
`toTable.toLowerCase()` call on an `undefined` split part, is unreachable
— and parsing the empty string returns a Suggestion whose sequences
(tables, relationships, notes, sqlQueries, optimizations and the unused
general) are all empty. -/
theorem c2_parse_never_raises_and_empty_ok :
    (∀ s : String, ∃ r, parseAIResponse s = Except.ok r) ∧
    parseAIResponse "" = Except.ok ⟨[], [], [], [], [], []⟩ :=
  ⟨parseAIResponse_isOk, rfl⟩

/-- Claim C10 (confirmed): no extraction stage ever populates
`optimizations`, so every successful parse yields an empty optimizations
sequence. -/
theorem c10_no_optimizations (s : String) (r : Suggestion)
    (h : parseAIResponse s = Except.ok r) : r.optimizations = [] := by
  rw [parseAIResponse_eq_ok s] at h
  have hr := Except.ok.inj h
  rw [← hr, parseOk_eq]

/-- Witness for C10 at the concrete input `"hello world"`. -/
theorem c10_no_optimizations_witness :
    (parseOk "hello world").optimizations = [] :=
  c10_no_optimizations "hello world" (parseOk "hello world")
    (parseAIResponse_eq_ok "hello world")

/-- Claim C9 (counterexample): on `c9in` the heuristic stages 3–5 all
produce nothing, and the fallback scan would contribute the analysis
table `users`, yet the parse result contains only the JSON-block table —
the fallback did not run, because its trigger condition looks at the
cumulative suggestion object including the fenced-JSON stage, not at the
output of stages 3–5 alone. -/
theorem c9_counterexample :
    stage3Tables c9in.data = [] ∧ stage4Rels c9in.data = .ok [] ∧
    stage5Notes c9in.data = [] ∧
    (extractGeneralSuggestions c9in.data).1 = [analysisTable "users".data] ∧
    (parseOk c9in).tables = [usersTableJ] := ⟨rfl, rfl, rfl, rfl, rfl⟩

/-- Claim C9 (amended): the fallback general-advice scan runs exactly
when the cumulative suggestions accumulated by the fenced-JSON stage plus
stages 3–5 hold zero tables, zero relationships and zero notes; when it
runs, its tables and relationships are appended to the result. -/
theorem c9_amended_cumulative_fallback_trigger (s : String) :
    (parseOk s).tables =
      ((jsonStage s.data).1 ++ stage3Tables s.data) ++
        (if (((jsonStage s.data).1 ++ stage3Tables s.data).isEmpty &&
             ((jsonStage s.data).2.1 ++ stage4RelsOk s.data).isEmpty &&
             ((jsonStage s.data).2.2 ++ stage5Notes s.data).isEmpty)
         then fbTables s.data else []) ∧
    (parseOk s).relationships =
      ((jsonStage s.data).2.1 ++ stage4RelsOk s.data) ++
        (if (((jsonStage s.data).1 ++ stage3Tables s.data).isEmpty &&
             ((jsonStage s.data).2.1 ++ stage4RelsOk s.data).isEmpty &&
             ((jsonStage s.data).2.2 ++ stage5Notes s.data).isEmpty)
         then fbRels s.data else []) := by
  constructor
  · rw [parseOk_eq]; rfl
  · rw [parseOk_eq]; rfl

/-- Claim C8 (counterexample): parsing `"link posts to users"` yields
exactly one RelationshipSuggestion, but its `fromTable` is the full split
part `"link posts"` (the keyword-stripping regexp only fires when the
word `relationship` is present) and its `fromField` is
`"link posts_id"`, not the claimed `"posts"`/`"posts_id"`. -/
theorem c8_counterexample :
    (parseOk c8in).relationships =
      [mkRelObj "link posts".data "users".data] ∧
    jGet (mkRelObj "link posts".data "users".data) "fromTable" =
      some (.jstr "link posts".data) ∧
    jGet (mkRelObj "link posts".data "users".data) "fromField" =
      some (.jstr "link posts_id".data) ∧
    "link posts".data ≠ "posts".data ∧
    "link posts_id".data ≠ "posts_id".data :=
  ⟨rfl, rfl, rfl, by decide, by decide⟩

/-- Claim C8 (amended): parsing `"link posts to users"` yields exactly one
RelationshipSuggestion `{fromTable: "link posts", toTable: "users",
fromField: "link posts_id", toField: "id", cardinality: "one_to_many",
constraint: "No action"}`, and no other suggestions. -/
theorem c8_amended_link_relationship :
    (parseOk c8in).relationships =
      [.jobj [("fromTable".data, .jstr "link posts".data),
              ("toTable".data, .jstr "users".data),
              ("fromField".data, .jstr "link posts_id".data),
              ("toField".data, .jstr "id".data),
              ("cardinality".data, .jstr "one_to_many".data),
              ("constraint".data, .jstr "No action".data)]] ∧
    (parseOk c8in).tables = [] ∧ (parseOk c8in).notes = [] ∧
    (parseOk c8in).sqlQueries = [] := ⟨rfl, rfl, rfl, rfl⟩

/-- Claim C4 (code_bug evidence): applying a message holding exactly one
table suggestion over an empty diagram succeeds (`appliedCount = 1`, no
errors) yet produces no undo-stack entry and does not clear the redo
stack — the applier calls the mutation collaborator with
`skipHistory = true` and never touches the stacks itself, contradicting
the documented one-entry-per-add behaviour (which the unused
`aiActions.js` helper implements). -/
theorem c4_apply_skips_history :
    (handleApplySuggestion c4in emptyDiagram [undoW] [redoW]).map
      (fun st => (st.applied, st.errors, st.undo, st.redo)) =
      Except.ok (1, [], [undoW], [redoW]) := rfl

/-- Claim C1 (counterexample): for the input
`"I recommend adding table orders"` the table-name stage yields three
suggestions, not one, and applying them to an empty diagram applies all
three (`appliedCount = 3`), refuting the claimed single suggestion and
`appliedCount = 1`. -/
theorem c1_counterexample :
    (parseOk c1in).tables.length = 3 ∧
    (parseOk c1in).tables ≠ [mkBasicTable "orders".data] ∧
    (handleApplySuggestion c1in emptyDiagram [] []).map
      (fun st => (st.applied, st.errors.length)) = Except.ok (3, 0) := by
  refine ⟨rfl, ?_, rfl⟩
  intro h
  have h3 : (parseOk c1in).tables.length = 3 := rfl
  rw [h] at h3
  simp at h3

/-- Claim C1 (amended): for `"I recommend adding table orders"` stage 3
yields three TableSuggestions — `"recommend orders"` from pattern 1 (the
strip regexp removes only `adding table `) and `"orders"` twice from
patterns 2 and 3 — each with the default `id`/`created_at`/`updated_at`
fields and an `AI-suggested table: ...` comment; applying the parse
result against an empty diagram yields `appliedCount = 3`, zero errors,
and a diagram holding the three tables (the in-batch duplicate `orders`
is not deduplicated, because the existence check consults only the
pre-existing tables). -/
theorem c1_amended_end_to_end :
    (parseOk c1in).tables =
      [mkBasicTable "recommend orders".data, mkBasicTable "orders".data,
       mkBasicTable "orders".data] ∧
    (parseOk c1in).relationships = [] ∧ (parseOk c1in).notes = [] ∧
    (handleApplySuggestion c1in emptyDiagram [] []).map
      (fun st => (st.applied, st.errors, st.diagTables.map DTable.name)) =
      Except.ok (3, [],
        [some (.jstr "recommend orders".data), some (.jstr "orders".data),
         some (.jstr "orders".data)]) := ⟨rfl, rfl, rfl, rfl⟩

/-- Claim C5 (confirmed): a table suggestion whose name strict-equals the
name of a table already in the diagram snapshot is a silent no-op — the
step returns the state unchanged (no applied count, no error, no diagram
mutation), and the fold continues with the remaining suggestions. -/
theorem c5_existing_table_skip (tables0 : List DTable) (st : ApplyState)
    (tv : JVal) (hnn : tv ≠ JVal.jnull) (t0 : DTable) (ht0 : t0 ∈ tables0)
    (hname : jsEqO t0.name (jGet tv "name") = true) :
    stepTable tables0 st tv = .ok st ∧
    ∀ rest : List JVal,
      List.foldlM (stepTable tables0) st (tv :: rest) =
        List.foldlM (stepTable tables0) st rest := by
  have hfind : (tables0.find? fun t => jsEqO t.name (jGet tv "name")).isSome
      = true := List.find?_isSome.mpr ⟨t0, ht0, hname⟩
  have hstep : stepTable tables0 st tv = .ok st := by
    cases tv with
    | jnull => exact absurd rfl hnn
    | jbool b => simp [stepTable, hfind]
    | jnum raw => simp [stepTable, hfind]
    | jstr v => simp [stepTable, hfind]
    | jarr xs => simp [stepTable, hfind]
    | jobj kvs => simp [stepTable, hfind]
  refine ⟨hstep, fun rest => ?_⟩
  rw [List.foldlM_cons, hstep]
  rfl

/-- Witness for C5: the suggestion `users` against a diagram already
holding a table `users`. -/
theorem c5_existing_table_skip_witness :
    stepTable [usersTableW] applyStW (mkBasicTable "users".data) =
      .ok applyStW :=
  (c5_existing_table_skip [usersTableW] applyStW
    (mkBasicTable "users".data) (fun h => JVal.noConfusion h)
    usersTableW (by simp) (by decide)).1

/-- Claim C6 (confirmed): a relationship suggestion one of whose endpoint
names matches neither a pre-existing table nor a batch-added table
records exactly one error, performs no diagram mutation, and the fold
continues with the remaining suggestions. -/
theorem c6_unresolved_relationship_error (tables0 : List DTable)
    (st : ApplyState) (rv : JVal) (hnn : rv ≠ JVal.jnull)
    (hmiss :
      (∀ t ∈ tables0 ++ st.added,
        jsEqO t.name (jGet rv "fromTable") = false) ∨
      (∀ t ∈ tables0 ++ st.added,
        jsEqO t.name (jGet rv "toTable") = false)) :
    stepRel tables0 st rv = .ok { st with errors := st.errors ++
      ["Could not find tables for relationship: ".data ++
        relArrow (jGet rv "fromTable") (jGet rv "toTable")] } ∧
    ∀ rest : List JVal,
      List.foldlM (stepRel tables0) st (rv :: rest) =
        List.foldlM (stepRel tables0)
          ({ st with errors := st.errors ++
            ["Could not find tables for relationship: ".data ++
              relArrow (jGet rv "fromTable") (jGet rv "toTable")] }) rest := by
  have hstep : stepRel tables0 st rv = .ok { st with errors := st.errors ++
      ["Could not find tables for relationship: ".data ++
        relArrow (jGet rv "fromTable") (jGet rv "toTable")] } := by
    rcases hmiss with hm | hm
    · have hf : ((tables0 ++ st.added).find?
          fun t => jsEqO t.name (jGet rv "fromTable")) = none :=
        List.find?_eq_none.mpr fun x hx => by simp [hm x hx]
      cases rv with
      | jnull => exact absurd rfl hnn
      | jbool b => simp [stepRel, hf]
      | jnum raw => simp [stepRel, hf]
      | jstr v => simp [stepRel, hf]
      | jarr xs => simp [stepRel, hf]
      | jobj kvs => simp [stepRel, hf]
    · have hf : ((tables0 ++ st.added).find?
          fun t => jsEqO t.name (jGet rv "toTable")) = none :=
        List.find?_eq_none.mpr fun x hx => by simp [hm x hx]
      cases hfrom : ((tables0 ++ st.added).find?
          fun t => jsEqO t.name (jGet rv "fromTable")) with
      | none =>
        cases rv with
        | jnull => exact absurd rfl hnn
        | jbool b => simp [stepRel, hfrom]
        | jnum raw => simp [stepRel, hfrom]
        | jstr v => simp [stepRel, hfrom]
        | jarr xs => simp [stepRel, hfrom]
        | jobj kvs => simp [stepRel, hfrom]
      | some srcT =>
        cases rv with
        | jnull => exact absurd rfl hnn
        | jbool b => simp [stepRel, hfrom, hf]
        | jnum raw => simp [stepRel, hfrom, hf]
        | jstr v => simp [stepRel, hfrom, hf]
        | jarr xs => simp [stepRel, hfrom, hf]
        | jobj kvs => simp [stepRel, hfrom, hf]
  refine ⟨hstep, fun rest => ?_⟩
  rw [List.foldlM_cons, hstep]
  rfl

/-- Witness for C6: the relationship `posts → users` against an empty
diagram and an empty batch. -/
theorem c6_unresolved_relationship_error_witness :
    stepRel [] (initialState emptyDiagram [] []) relSuggW =
      .ok { initialState emptyDiagram [] [] with errors :=
        (initialState emptyDiagram [] []).errors ++
          ["Could not find tables for relationship: ".data ++
            relArrow (jGet relSuggW "fromTable")
              (jGet relSuggW "toTable")] } :=
  (c6_unresolved_relationship_error [] (initialState emptyDiagram [] [])
    relSuggW (fun h => JVal.noConfusion h)
    (Or.inl (by intro t ht; simp [initialState] at ht))).1

/-- Claim C7 (counterexample): the context builder resolves table
references (`toTable` becomes `"unknown"` for the dangling id `zzz`) but
passes field references through untouched: `fromField` stays the opaque
id `"f9"` even though the referenced table's only field is named `"id"` —
field references are not resolved to human-readable names. -/
theorem c7_counterexample :
    (buildDiagramContext c7ds).relationships =
      [{ fromTable := "users", toTable := "unknown", fromField := "f9",
         toField := "f8", cardinality := "one_to_many",
         constraint := "No action", name := "rel_r1" }] ∧
    (c7table.fields.getD []).map CField.name = ["id"] ∧
    ("f9" : String) ≠ "id" := ⟨rfl, rfl, by decide⟩

/-- Claim C7 (amended): for every diagram state the context builder is
total, each relationship is projected with its field identifiers copied
verbatim (not resolved to names), and a side whose table identifier
matches no table resolves to the literal `"unknown"`. -/
theorem c7_amended_context_builder (ds : BuildInput) (r : CRel)
    (hr : r ∈ ds.relationships) :
    ∃ cr ∈ (buildDiagramContext ds).relationships,
      cr.fromField = r.startFieldId ∧ cr.toField = r.endFieldId ∧
      ((∀ t ∈ ds.tables, t.id ≠ r.startTableId) →
        cr.fromTable = "unknown") ∧
      ((∀ t ∈ ds.tables, t.id ≠ r.endTableId) → cr.toTable = "unknown") := by
  refine ⟨resolveRelC ds.tables r, List.mem_map_of_mem _ hr, rfl, rfl,
    ?_, ?_⟩
  · intro hnone
    have hf : (ds.tables.find? fun t => t.id == r.startTableId) = none :=
      List.find?_eq_none.mpr fun t ht => by
        simp only [beq_iff_eq]
        exact fun he => hnone t ht he
    simp [resolveRelC, hf, jsOrStr]
  · intro hnone
    have hf : (ds.tables.find? fun t => t.id == r.endTableId) = none :=
      List.find?_eq_none.mpr fun t ht => by
        simp only [beq_iff_eq]
        exact fun he => hnone t ht he
    simp [resolveRelC, hf, jsOrStr]

/-- Witness for C7 at the concrete diagram `c7ds`. -/
theorem c7_amended_context_builder_witness :
    ∃ cr ∈ (buildDiagramContext c7ds).relationships,
      cr.fromField = c7rel.startFieldId ∧ cr.toField = c7rel.endFieldId ∧
      ((∀ t ∈ c7ds.tables, t.id ≠ c7rel.startTableId) →
        cr.fromTable = "unknown") ∧
      ((∀ t ∈ c7ds.tables, t.id ≠ c7rel.endTableId) →
        cr.toTable = "unknown") :=
  c7_amended_context_builder c7ds c7rel (by simp [c7ds])

/-- Claim C3 (counterexample): `c3in` holds one malformed fenced JSON
block followed by one well-formed block, yet the parse result is not
exactly the well-formed block's suggestions: the malformed block's text
`add table foo {` also feeds the stage-3 heuristics, which contribute two
further `foo` tables. -/
theorem c3_counterexample :
    (matchAll fenceJsonRx c3in.data).map stripJsonFence = [c3b1, c3b2] ∧
    jsonParse c3b1 = none ∧ jsonParse c3b2 = some c3val ∧
    (parseOk c3in).tables =
      [barTableJ, mkBasicTable "foo".data, mkBasicTable "foo".data] ∧
    (parseOk c3in).tables ≠ [barTableJ] := by
  refine ⟨rfl, rfl, rfl, rfl, ?_⟩
  intro h
  have h3 : (parseOk c3in).tables.length = 3 := rfl
  rw [h] at h3
  simp at h3

/-- Claim C3 (amended): when the text's fenced JSON blocks are one
malformed block followed by one well-formed block, the malformed block
contributes nothing and every suggestion of the well-formed block is
included — its tables, relationships and notes form a prefix of the
corresponding result sequences — while the heuristic stages may append
further suggestions from the same text. -/
theorem c3_amended_good_block_prefix (s : String) (b1 b2 : List Char)
    (v : JVal)
    (hb : (matchAll fenceJsonRx s.data).map stripJsonFence = [b1, b2])
    (h1 : jsonParse b1 = none) (h2 : jsonParse b2 = some v)
    (hv : v ≠ JVal.jnull) :
    (parseOk s).tables.take (jArrOf (jGet v "tables")).length =
      jArrOf (jGet v "tables") ∧
    (parseOk s).relationships.take
        (jArrOf (jGet v "relationships")).length =
      jArrOf (jGet v "relationships") ∧
    (parseOk s).notes.take (jArrOf (jGet v "notes")).length =
      jArrOf (jGet v "notes") := by
  obtain ⟨m1, m2, hml, hs1, hs2⟩ :
      ∃ m1 m2, matchAll fenceJsonRx s.data = [m1, m2] ∧
        stripJsonFence m1 = b1 ∧ stripJsonFence m2 = b2 := by
    cases hml : matchAll fenceJsonRx s.data with
    | nil => rw [hml] at hb; simp at hb
    | cons m1 rest =>
      cases rest with
      | nil => rw [hml] at hb; simp at hb
      | cons m2 rest2 =>
        cases rest2 with
        | nil =>
          rw [hml] at hb
          simp only [List.map_cons, List.map_nil, List.cons.injEq,
            and_true] at hb
          exact ⟨m1, m2, rfl, hb.1, hb.2⟩
        | cons m3 rest3 => rw [hml] at hb; simp at hb
  have hstep1 : jsonBlockAdd ([], [], []) m1 = ([], [], []) := by
    simp [jsonBlockAdd, hs1, h1]
  have hstep2 : jsonBlockAdd ([], [], []) m2 =
      (jArrOf (jGet v "tables"), jArrOf (jGet v "relationships"),
       jArrOf (jGet v "notes")) := by
    cases v with
    | jnull => exact absurd rfl hv
    | jbool b => simp [jsonBlockAdd, hs2, h2]
    | jnum raw => simp [jsonBlockAdd, hs2, h2]
    | jstr w => simp [jsonBlockAdd, hs2, h2]
    | jarr xs => simp [jsonBlockAdd, hs2, h2]
    | jobj kvs => simp [jsonBlockAdd, hs2, h2]
  have hjs : jsonStage s.data =
      (jArrOf (jGet v "tables"), jArrOf (jGet v "relationships"),
       jArrOf (jGet v "notes")) := by
    rw [jsonStage, hml]
    simp only [List.foldl_cons, List.foldl_nil, hstep1, hstep2]
  refine ⟨?_, ?_, ?_⟩
  · rw [parseOk_eq]
    simp only [hjs, List.append_assoc]
    exact List.take_left _ _
  · rw [parseOk_eq]
    simp only [hjs, List.append_assoc]
    exact List.take_left _ _
  · rw [parseOk_eq]
    simp only [hjs]
    exact List.take_left _ _

/-- Witness for C3 at the concrete two-block text `c3in`. -/
theorem c3_amended_good_block_prefix_witness :
    (parseOk c3in).tables.take (jArrOf (jGet c3val "tables")).length =
      jArrOf (jGet c3val "tables") ∧
    (parseOk c3in).relationships.take
        (jArrOf (jGet c3val "relationships")).length =
      jArrOf (jGet c3val "relationships") ∧
    (parseOk c3in).notes.take (jArrOf (jGet c3val "notes")).length =
      jArrOf (jGet c3val "notes") :=
  c3_amended_good_block_prefix c3in c3b1 c3b2 c3val rfl rfl rfl
    (fun h => JVal.noConfusion h)

end DrawdbAI

